import Mathlib

/-!
Verification of the core of the AI-Indian-Portfolio-Tracker backend
(`backend/app/mcp_manager.py` and `backend/app/main.py`).

The development shallowly embeds the Python code:

* Python values are modelled by the inductive type `PyVal` (None, bool, int,
  float, str, bytes, list, dict).  Python dicts are association lists keyed by
  strings; lookup returns the first binding, assignment updates the first
  binding in place or appends.  Python `float` is idealized as `Rat`
  (exact rational arithmetic; no claim under scrutiny depends on rounding).
* Fallible Python expressions are modelled with `Option`/`Except`; a `none`
  stands for a raised exception at that spot.
* `re`-based scanning in the source is modelled by hand-rolled total scanners
  that implement exactly the match semantics of the concrete patterns that
  appear in the code.
-/

set_option maxHeartbeats 1000000

namespace Portfolio

/-- Model of a Python runtime value as it appears in the backend code paths:
`None`, `bool`, `int`, `float` (idealized as `Rat`), `str`, `bytes`
(carried as its decoded text, since the code only ever `.decode()`s them),
`list`/`tuple`, and `dict` with string keys (an insertion-ordered
association list, first binding wins on lookup). -/
inductive PyVal where
  | vnone : PyVal
  | vbool (b : Bool) : PyVal
  | vint (n : Int) : PyVal
  | vfloat (q : Rat) : PyVal
  | vstr (s : String) : PyVal
  | vbytes (s : String) : PyVal
  | vlist (l : List PyVal) : PyVal
  | vdict (d : List (String × PyVal)) : PyVal

namespace PyVal

/-- Python dict lookup `d[k]` / `d.get(k)`: value of the first binding of `k`. -/
def dGet (k : String) : List (String × PyVal) → Option PyVal
  | [] => Option.none
  | (k', v) :: rest => if k' = k then Option.some v else dGet k rest

/-- Python `d.get(k)` with default `None`. -/
def dGetV (k : String) (d : List (String × PyVal)) : PyVal :=
  (dGet k d).getD PyVal.vnone

/-- Python `k in d` membership test. -/
def dMem (k : String) (d : List (String × PyVal)) : Bool :=
  (dGet k d).isSome

/-- Python dict assignment `d[k] = v`: replaces the first binding of `k`
keeping its position, or appends a new binding at the end. -/
def dSet (k : String) (v : PyVal) : List (String × PyVal) → List (String × PyVal)
  | [] => [(k, v)]
  | (k', w) :: rest => if k' = k then (k, v) :: rest else (k', w) :: dSet k v rest

/-- Python truthiness (`bool(v)`): `None`, `False`, zero, and empty
containers/strings are falsy. -/
def truthy : PyVal → Bool
  | vnone => false
  | vbool b => b
  | vint n => n ≠ 0
  | vfloat q => q ≠ 0
  | vstr s => s ≠ ""
  | vbytes s => s ≠ ""
  | vlist l => !l.isEmpty
  | vdict d => !d.isEmpty

/-- Python `a or b`: `a` if truthy, else `b`. -/
def pyOr (a b : PyVal) : PyVal := if truthy a then a else b

/-- Values that pass Python's `isinstance(v, (int, float))` check
(`bool` is a subclass of `int`). -/
def isNumber : PyVal → Bool
  | vbool _ => true
  | vint _ => true
  | vfloat _ => true
  | _ => false

/-- Numeric value of an int-like operand (`bool` counts as 0/1). -/
def asInt : PyVal → Option Int
  | vbool b => Option.some (if b then 1 else 0)
  | vint n => Option.some n
  | _ => Option.none

/-- Numeric value of any numeric operand, as a rational. -/
def asRat : PyVal → Option Rat
  | vbool b => Option.some (if b then 1 else 0)
  | vint n => Option.some (n : Rat)
  | vfloat q => Option.some q
  | _ => Option.none

/-- Python binary `a - b` restricted to the operand kinds reachable in the
backend: defined on numbers (int-like minus int-like stays int, anything
involving a float is a float); every other combination raises `TypeError`,
modelled as `none`. -/
def pySub (a b : PyVal) : Option PyVal :=
  match asInt a, asInt b with
  | Option.some x, Option.some y => Option.some (vint (x - y))
  | _, _ =>
    match asRat a, asRat b with
    | Option.some x, Option.some y => Option.some (vfloat (x - y))
    | _, _ => Option.none

/-- String repetition `n * s` (Python yields `""` for `n ≤ 0`). -/
def strRepeat (n : Int) (s : String) : String :=
  String.join (List.replicate n.toNat s)

/-- List repetition `n * l`. -/
def listRepeat (n : Int) (l : List PyVal) : List PyVal :=
  List.flatten (List.replicate n.toNat l)

/-- Python binary `a * b` on the operand kinds reachable in the backend:
numeric multiplication, plus Python's sequence repetition when an int-like
operand meets a `str`, `bytes`, or `list`; other combinations raise
`TypeError` (`none`). -/
def pyMul (a b : PyVal) : Option PyVal :=
  match asInt a, asInt b with
  | Option.some x, Option.some y => Option.some (vint (x * y))
  | Option.some x, Option.none =>
    match b with
    | vstr s => Option.some (vstr (strRepeat x s))
    | vbytes s => Option.some (vbytes (strRepeat x s))
    | vlist l => Option.some (vlist (listRepeat x l))
    | vfloat q =>
      match asRat a with
      | Option.some xr => Option.some (vfloat (xr * q))
      | Option.none => Option.none
    | _ => Option.none
  | Option.none, Option.some y =>
    match a with
    | vstr s => Option.some (vstr (strRepeat y s))
    | vbytes s => Option.some (vbytes (strRepeat y s))
    | vlist l => Option.some (vlist (listRepeat y l))
    | vfloat q =>
      match asRat b with
      | Option.some yr => Option.some (vfloat (q * yr))
      | Option.none => Option.none
    | _ => Option.none
  | Option.none, Option.none =>
    match asRat a, asRat b with
    | Option.some x, Option.some y => Option.some (vfloat (x * y))
    | _, _ => Option.none

/-- Python true division `a / b`: defined on numbers with nonzero divisor,
always yields a float; division by zero raises (`none`). -/
def pyDiv (a b : PyVal) : Option PyVal :=
  match asRat a, asRat b with
  | Option.some x, Option.some y =>
    if y = 0 then Option.none else Option.some (vfloat (x / y))
  | _, _ => Option.none

/-- Python identity test `v is None`. -/
def isNone : PyVal → Bool
  | vnone => true
  | _ => false

/-- Python `v == 0` as used by `close not in (None, 0)`: true for `0`,
`0.0` and `False`. -/
def eqZero : PyVal → Bool
  | vint n => n = 0
  | vfloat q => q = 0
  | vbool b => !b
  | _ => false

end PyVal

/-! ### Whitespace, stripping, and float parsing (`_to_num` support) -/

/-- ASCII whitespace as recognized by Python's `str.strip()` and `\s`. -/
def isPyWs (c : Char) : Bool :=
  c = ' ' ∨ c = '\t' ∨ c = '\n' ∨ c = '\r' ∨ c = '\x0b' ∨ c = '\x0c'

/-- Python `str.strip()`: drop whitespace from both ends. -/
def pyStrip (s : String) : String :=
  String.mk (((s.data.dropWhile isPyWs).reverse.dropWhile isPyWs).reverse)

/-- Parse the fractional-digit part: digits `ds` after a decimal point add
`Σ ds i / 10^(i+1)`. -/
def fracVal : List Char → Rat
  | [] => 0
  | c :: rest => ((c.toNat - '0'.toNat : Nat) + fracVal rest) / 10

/-- Decimal value of a digit list (most significant first). -/
def digitsVal (l : List Char) : Nat :=
  l.foldl (fun acc c => acc * 10 + (c.toNat - '0'.toNat)) 0

/-- Grammar of Python's `float(s)` on an already-stripped string: optional
sign, then either `digits [. digits]` or `. digits`, then an optional
exponent `e/E [sign] digits`.  (`inf`/`nan` and underscore separators are
not modelled; no claim exercises them.)  Returns the exact rational value,
or `none` when `float(s)` would raise `ValueError`. -/
def parseFloat? (s : String) : Option Rat :=
  let cs := s.data
  let (sign, cs) : Rat × List Char :=
    match cs with
    | '-' :: rest => (-1, rest)
    | '+' :: rest => (1, rest)
    | _ => (1, cs)
  let intPart := cs.takeWhile Char.isDigit
  let cs1 := cs.dropWhile Char.isDigit
  let (mantissa?, cs2) : Option Rat × List Char :=
    match cs1 with
    | '.' :: rest =>
      let fracPart := rest.takeWhile Char.isDigit
      let rest' := rest.dropWhile Char.isDigit
      if intPart = [] ∧ fracPart = [] then (Option.none, rest')
      else (Option.some ((digitsVal intPart : Rat) + fracVal fracPart), rest')
    | _ =>
      if intPart = [] then (Option.none, cs1)
      else (Option.some (digitsVal intPart : Rat), cs1)
  match mantissa? with
  | Option.none => Option.none
  | Option.some m =>
    match cs2 with
    | [] => Option.some (sign * m)
    | e :: rest =>
      if e = 'e' ∨ e = 'E' then
        let (esign, rest) : Int × List Char :=
          match rest with
          | '-' :: r => (-1, r)
          | '+' :: r => (1, r)
          | _ => (1, rest)
        let eDigits := rest.takeWhile Char.isDigit
        let rest' := rest.dropWhile Char.isDigit
        if eDigits = [] ∨ rest' ≠ [] then Option.none
        else Option.some (sign * m * (10 : Rat) ^ (esign * (digitsVal eDigits : Int)))
      else Option.none

/-- Text that `str(v)` produces for the atomic values the numeric coercion
can meet.  Composite reprs (`[...]`, `\x7b...\x7d`, `b'...'`) never parse as
floats, which is all the code's behaviour depends on. -/
def pyStrOfAtom : PyVal → String
  | PyVal.vnone => "None"
  | PyVal.vbool b => if b then "True" else "False"
  | PyVal.vint n => toString n
  | PyVal.vfloat q => toString q
  | PyVal.vstr s => s
  | PyVal.vbytes s => s
  | PyVal.vlist _ => "[...]"
  | PyVal.vdict _ => "\x7b...\x7d"

/-- Model of `main._to_num` (main.py lines 592-603): `None` stays `None`;
`int`/`float` (and `bool`, via `isinstance(v, (int, float))`) pass through
unchanged; any other value is rendered with `str`, stripped, the empty
string becomes `None`, and otherwise `float(s)` is attempted — on success
the parsed float is returned, and on `ValueError` the ORIGINAL value `v`
is returned unchanged (the `except` arm returns `v`). -/
def to_num (v : PyVal) : PyVal :=
  match v with
  | PyVal.vnone => PyVal.vnone
  | PyVal.vbool b => PyVal.vbool b
  | PyVal.vint n => PyVal.vint n
  | PyVal.vfloat q => PyVal.vfloat q
  | _ =>
    let s := pyStrip (pyStrOfAtom v)
    if s = "" then PyVal.vnone
    else
      match parseFloat? s with
      | Option.some q => PyVal.vfloat q
      | Option.none => v

/-! ### JSON decoding (`json.loads`)

Model of the strict JSON grammar accepted by Python's `json.loads`:
`null`/`true`/`false`, numbers (int when there is no fraction/exponent,
float otherwise; no leading zeros, no leading `+`), double-quoted strings
with the standard escapes, arrays and objects.  Recursion is by fuel; every
recursive call strictly decreases the fuel and the top-level call supplies
more fuel than the input length, so the fuel never runs out on real input
(each consumed fuel unit accompanies at least one consumed character).
Astral `\uXXXX` surrogate pairs are combined; a lone surrogate (which
Python would keep) is replaced by U+FFFD — no claim exercises that corner. -/

/-- JSON insignificant whitespace. -/
def isJsonWs (c : Char) : Bool :=
  c = ' ' ∨ c = '\t' ∨ c = '\n' ∨ c = '\r'

/-- Value of a hex digit, if any. -/
def hexVal? (c : Char) : Option Nat :=
  if '0' ≤ c ∧ c ≤ '9' then Option.some (c.toNat - '0'.toNat)
  else if 'a' ≤ c ∧ c ≤ 'f' then Option.some (c.toNat - 'a'.toNat + 10)
  else if 'A' ≤ c ∧ c ≤ 'F' then Option.some (c.toNat - 'A'.toNat + 10)
  else Option.none

mutual

/-- Decode a JSON string body (after the opening quote), returning the
decoded text and the input after the closing quote.  The fuel argument is
structural so the parser computes by reduction; every recursive call
consumes input, and callers pass more fuel than the remaining length. -/
def jsonStr : Nat → List Char → Option (List Char × List Char)
  | 0, _ => Option.none
  | Nat.succ _, [] => Option.none
  | Nat.succ _, '"' :: rest => Option.some ([], rest)
  | Nat.succ fuel, '\\' :: 'u' :: h1 :: h2 :: h3 :: h4 :: rest2 =>
    (match hexVal? h1, hexVal? h2, hexVal? h3, hexVal? h4 with
     | Option.some a, Option.some b, Option.some c, Option.some d =>
       let code := ((a * 16 + b) * 16 + c) * 16 + d
       if 0xD800 ≤ code ∧ code ≤ 0xDBFF then jsonStrAfterHigh fuel code rest2
       else if 0xDC00 ≤ code ∧ code ≤ 0xDFFF then
         (jsonStr fuel rest2).map (fun (s, r) => ('�' :: s, r))
       else (jsonStr fuel rest2).map (fun (s, r) => (Char.ofNat code :: s, r))
     | _, _, _, _ => Option.none)
  | Nat.succ fuel, '\\' :: e :: rest =>
    (match e with
     | '"' => (jsonStr fuel rest).map (fun (s, r) => ('"' :: s, r))
     | '\\' => (jsonStr fuel rest).map (fun (s, r) => ('\\' :: s, r))
     | '/' => (jsonStr fuel rest).map (fun (s, r) => ('/' :: s, r))
     | 'b' => (jsonStr fuel rest).map (fun (s, r) => ('\x08' :: s, r))
     | 'f' => (jsonStr fuel rest).map (fun (s, r) => ('\x0c' :: s, r))
     | 'n' => (jsonStr fuel rest).map (fun (s, r) => ('\n' :: s, r))
     | 'r' => (jsonStr fuel rest).map (fun (s, r) => ('\r' :: s, r))
     | 't' => (jsonStr fuel rest).map (fun (s, r) => ('\t' :: s, r))
     | _ => Option.none)
  | Nat.succ fuel, c :: rest =>
    if c.toNat < 0x20 then Option.none
    else (jsonStr fuel rest).map (fun (s, r) => (c :: s, r))

/-- Continue decoding a JSON string right after a `\uXXXX` high surrogate:
combine with a following `\uYYYY` low surrogate, else emit U+FFFD. -/
def jsonStrAfterHigh : Nat → Nat → List Char → Option (List Char × List Char)
  | 0, _, _ => Option.none
  | Nat.succ fuel, code, '\\' :: 'u' :: g1 :: g2 :: g3 :: g4 :: rest3 =>
    (match hexVal? g1, hexVal? g2, hexVal? g3, hexVal? g4 with
     | Option.some a', Option.some b', Option.some c', Option.some d' =>
       let code2 := ((a' * 16 + b') * 16 + c') * 16 + d'
       if 0xDC00 ≤ code2 ∧ code2 ≤ 0xDFFF then
         let astral := 0x10000 + (code - 0xD800) * 0x400 + (code2 - 0xDC00)
         (jsonStr fuel rest3).map (fun (s, r) => (Char.ofNat astral :: s, r))
       else
         (jsonStr fuel ('\\' :: 'u' :: g1 :: g2 :: g3 :: g4 :: rest3)).map
           (fun (s, r) => ('�' :: s, r))
     | _, _, _, _ => Option.none)
  | Nat.succ fuel, _, cs => (jsonStr fuel cs).map (fun (s, r) => ('�' :: s, r))

end

/-- Parse a JSON number at the head of the input: `-? (0 | [1-9][0-9]*)
(. [0-9]+)? ([eE][+-]?[0-9]+)?`; ints without fraction/exponent decode to
Python ints, everything else to floats. -/
def jsonNum : List Char → Option (Portfolio.PyVal × List Char)
  | cs =>
    let (neg, cs1) : Bool × List Char :=
      match cs with
      | '-' :: rest => (true, rest)
      | _ => (false, cs)
    let intPart := cs1.takeWhile Char.isDigit
    let cs2 := cs1.dropWhile Char.isDigit
    if intPart = [] then Option.none
    else if intPart.length > 1 ∧ intPart.headD '0' = '0' then Option.none
    else
      let iVal : Int := (Portfolio.digitsVal intPart : Int)
      let (frac?, cs3) : Option (List Char) × List Char :=
        match cs2 with
        | '.' :: rest =>
          let f := rest.takeWhile Char.isDigit
          (Option.some f, rest.dropWhile Char.isDigit)
        | _ => (Option.none, cs2)
      match frac? with
      | Option.some [] => Option.none
      | _ =>
        let (exp?, cs4) : Option Int × List Char :=
          match cs3 with
          | e :: rest =>
            if e = 'e' ∨ e = 'E' then
              let (es, rest1) : Int × List Char :=
                match rest with
                | '-' :: r => (-1, r)
                | '+' :: r => (1, r)
                | _ => (1, rest)
              let ed := rest1.takeWhile Char.isDigit
              if ed = [] then (Option.none, cs3)
              else (Option.some (es * (Portfolio.digitsVal ed : Int)), rest1.dropWhile Char.isDigit)
            else (Option.none, cs3)
          | _ => (Option.none, cs3)
        let sgn : Rat := if neg then -1 else 1
        match frac?, exp? with
        | Option.none, Option.none =>
          Option.some (Portfolio.PyVal.vint (if neg then -iVal else iVal), cs3)
        | f?, e? =>
          let m : Rat := (iVal : Rat) + (match f? with
            | Option.some f => Portfolio.fracVal f
            | Option.none => 0)
          let expo : Int := match e? with
            | Option.some e => e
            | Option.none => 0
          Option.some (Portfolio.PyVal.vfloat (sgn * m * (10 : Rat) ^ expo), cs4)

mutual

/-- Parse one JSON value (fuel-indexed; see the section comment). -/
def jsonVal : Nat → List Char → Option (Portfolio.PyVal × List Char)
  | 0, _ => Option.none
  | Nat.succ fuel, cs =>
    match cs.dropWhile isJsonWs with
    | 'n' :: 'u' :: 'l' :: 'l' :: r => Option.some (Portfolio.PyVal.vnone, r)
    | 't' :: 'r' :: 'u' :: 'e' :: r => Option.some (Portfolio.PyVal.vbool true, r)
    | 'f' :: 'a' :: 'l' :: 's' :: 'e' :: r => Option.some (Portfolio.PyVal.vbool false, r)
    | '"' :: r => (jsonStr fuel r).map (fun (s, r') => (Portfolio.PyVal.vstr (String.mk s), r'))
    | '[' :: r =>
      (match r.dropWhile isJsonWs with
       | ']' :: r' => Option.some (Portfolio.PyVal.vlist [], r')
       | r' => (jsonArr fuel r').map (fun (l, r'') => (Portfolio.PyVal.vlist l, r'')))
    | '{' :: r =>
      (match r.dropWhile isJsonWs with
       | '}' :: r' => Option.some (Portfolio.PyVal.vdict [], r')
       | r' => (jsonObj fuel r').map (fun (d, r'') => (Portfolio.PyVal.vdict d, r'')))
    | cs' => jsonNum cs'

/-- Parse the elements of a non-empty JSON array (after `[`). -/
def jsonArr : Nat → List Char → Option (List Portfolio.PyVal × List Char)
  | 0, _ => Option.none
  | Nat.succ fuel, cs =>
    match jsonVal fuel cs with
    | Option.none => Option.none
    | Option.some (v, r) =>
      match r.dropWhile isJsonWs with
      | ',' :: r' => (jsonArr fuel r').map (fun (l, r'') => (v :: l, r''))
      | ']' :: r' => Option.some ([v], r')
      | _ => Option.none

/-- Parse the members of a non-empty JSON object (after the opening brace). -/
def jsonObj : Nat → List Char → Option (List (String × Portfolio.PyVal) × List Char)
  | 0, _ => Option.none
  | Nat.succ fuel, cs =>
    match cs.dropWhile isJsonWs with
    | '"' :: r =>
      match jsonStr fuel r with
      | Option.none => Option.none
      | Option.some (k, r1) =>
        match r1.dropWhile isJsonWs with
        | ':' :: r2 =>
          match jsonVal fuel r2 with
          | Option.none => Option.none
          | Option.some (v, r3) =>
            match r3.dropWhile isJsonWs with
            | ',' :: r4 => (jsonObj fuel r4).map (fun (d, r5) => ((String.mk k, v) :: d, r5))
            | '}' :: r4 => Option.some ([(String.mk k, v)], r4)
            | _ => Option.none
        | _ => Option.none
    | _ => Option.none

end

/-- Model of `json.loads(s)`: parse one JSON document, requiring that only
whitespace remains; `none` models the raised `JSONDecodeError`. -/
def jsonLoads (s : String) : Option Portfolio.PyVal :=
  match jsonVal (s.length + 2) s.data with
  | Option.some (v, rest) =>
    if rest.dropWhile isJsonWs = [] then Option.some v else Option.none
  | Option.none => Option.none

/-- Model of `MCPManager._normalize_tool_result` (mcp_manager.py lines
125-150).  The `hasattr(raw, "content")` arm concerns foreign objects with
attributes, which have no counterpart among plain values and is vacuous
here; the `dict`-with-`"content"` arm is modelled faithfully: a non-empty
list under `"content"` has its first element unwrapped via
`first.get("text", first)` — and when that first element is not a dict the
attribute error is caught and the whole original value is kept.  Finally a
string value is JSON-decoded, keeping the string when decoding fails. -/
def normalize_tool_result (raw : PyVal) : PyVal :=
  let value : PyVal :=
    match raw with
    | PyVal.vdict d =>
      match PyVal.dGet "content" d with
      | Option.some (PyVal.vlist (first :: _)) =>
        (match first with
         | PyVal.vdict fd =>
           (match PyVal.dGet "text" fd with
            | Option.some t => t
            | Option.none => first)
         | _ => raw)
      | _ => raw
    | _ => raw
  match value with
  | PyVal.vstr s =>
    (match jsonLoads s with
     | Option.some v => v
     | Option.none => PyVal.vstr s)
  | v => v

/-! ### URL extraction (`extract_url`, mcp_manager.py lines 16-61)

The two regular expressions in the source are
`https?://[\w\-./?=&%:]+` (the bare-URL pattern, compiled as `url_pattern`)
and `URL:\s*(https?://[\w\-./?=&%:]+)` (the explicit-marker pattern).
Both are modelled by exact character scanners: `re.search` semantics is
"earliest start position wins", the character class is greedy, and the
patterns contain no point requiring backtracking (after the literal
`https?://`, the class and nothing else follows; after `URL:` the `\s*`
cannot trade characters with the group because the group must start with
`h`, which is not whitespace). -/

/-- Characters of the class `[\w\-./?=&%:]` (`\w` restricted to ASCII
alphanumerics and underscore; the inputs under scrutiny are ASCII). -/
def urlChar (c : Char) : Bool :=
  c.isAlphanum ∨ c = '_' ∨ c = '-' ∨ c = '.' ∨ c = '/' ∨ c = '?' ∨
    c = '=' ∨ c = '&' ∨ c = '%' ∨ c = ':'

/-- Match `https?://[\w\-./?=&%:]+` anchored at the head of the input;
returns the full match. -/
def matchBareAt (cs : List Char) : Option String :=
  match cs with
  | 'h' :: 't' :: 't' :: 'p' :: 's' :: ':' :: '/' :: '/' :: rest =>
    let run := rest.takeWhile urlChar
    if run = [] then Option.none
    else Option.some (String.mk (['h', 't', 't', 'p', 's', ':', '/', '/'] ++ run))
  | 'h' :: 't' :: 't' :: 'p' :: ':' :: '/' :: '/' :: rest =>
    let run := rest.takeWhile urlChar
    if run = [] then Option.none
    else Option.some (String.mk (['h', 't', 't', 'p', ':', '/', '/'] ++ run))
  | _ => Option.none

/-- Model of `url_pattern.search(s)`: first (leftmost) bare-URL match. -/
def searchBare : List Char → Option String
  | [] => Option.none
  | c :: rest =>
    match matchBareAt (c :: rest) with
    | Option.some u => Option.some u
    | Option.none => searchBare rest

/-- Match `URL:\s*(https?://...)` anchored at the head; returns group 1. -/
def matchMarkerAt (cs : List Char) : Option String :=
  match cs with
  | 'U' :: 'R' :: 'L' :: ':' :: rest => matchBareAt (rest.dropWhile isPyWs)
  | _ => Option.none

/-- Model of `re.search(r"URL:\s*(https?://...)", s)`: leftmost marker
match, returning the captured URL. -/
def searchMarker : List Char → Option String
  | [] => Option.none
  | c :: rest =>
    match matchMarkerAt (c :: rest) with
    | Option.some u => Option.some u
    | Option.none => searchMarker rest

/-- Per-candidate text search of `extract_url`'s loop body: the marker
pattern is preferred, the bare pattern is the fallback. -/
def searchText (s : String) : Option String :=
  match searchMarker s.data with
  | Option.some u => Option.some u
  | Option.none => searchBare s.data

/-- Text a non-container candidate is coerced to (`c.decode()` for bytes,
`str(c)` otherwise) before the regex search. -/
def candText : PyVal → String
  | PyVal.vbytes s => s
  | v => pyStrOfAtom v

/-- Auxiliary bound for the termination of `extract_url`: a value found by
`dGet` sits strictly inside its dictionary. -/
theorem dGet_sizeOf_lt {k : String} {d : List (String × PyVal)} {v : PyVal}
    (h : PyVal.dGet k d = Option.some v) : sizeOf v + 2 ≤ sizeOf d := by
  induction d with
  | nil => simp [PyVal.dGet] at h
  | cons p rest ih =>
    obtain ⟨k', w⟩ := p
    simp only [PyVal.dGet] at h
    split at h
    · cases h
      simp only [List.cons.sizeOf_spec, Prod.mk.sizeOf_spec]
      omega
    · have := ih h
      simp only [List.cons.sizeOf_spec, Prod.mk.sizeOf_spec]
      omega

/-- List tails contribute at least 1 to `sizeOf`. -/
theorem list_sizeOf_pos (l : List PyVal) : 0 < sizeOf l := by
  cases l <;> simp

/-- Keys probed on a dict result, in the fixed source order. -/
def candKeys : List String :=
  ["text", "message", "url", "data", "content", "structured_content"]

mutual

/-- Model of `extract_url` (mcp_manager.py lines 16-61).  `None` yields
`none`; a string or bytes value is its own single candidate and is
searched directly; a dict contributes the values of its present keys among
`text, message, url, data, content, structured_content` in that order; a
list contributes its elements in order; numbers and booleans have none of
the probed attributes and yield no candidate.  Each candidate that is
itself a dict or list is recursed into; other candidates are coerced to
text and searched, marker pattern first.  The first hit wins. -/
def extract_url : PyVal → Option String
  | PyVal.vnone => Option.none
  | PyVal.vstr s => searchText s
  | PyVal.vbytes s => searchText s
  | PyVal.vbool _ => Option.none
  | PyVal.vint _ => Option.none
  | PyVal.vfloat _ => Option.none
  | PyVal.vdict d => tryDictKeys d candKeys
  | PyVal.vlist l => tryCandList l
termination_by v => (sizeOf v, 0)
decreasing_by
  all_goals apply Prod.Lex.left
  all_goals simp [candKeys]

/-- The candidate loop over the present dict keys. -/
def tryDictKeys (d : List (String × PyVal)) : List String → Option String
  | [] => Option.none
  | k :: ks =>
    match h : PyVal.dGet k d with
    | Option.some v =>
      (match tryCand v with
       | Option.some u => Option.some u
       | Option.none => tryDictKeys d ks)
    | Option.none => tryDictKeys d ks
termination_by ks => (sizeOf d, ks.length)
decreasing_by
  · apply Prod.Lex.left
    have := dGet_sizeOf_lt h
    omega
  · apply Prod.Lex.right
    simp only [List.length_cons]
    omega
  · apply Prod.Lex.right
    simp only [List.length_cons]
    omega

/-- The candidate loop over list elements. -/
def tryCandList : List PyVal → Option String
  | [] => Option.none
  | c :: rest =>
    match tryCand c with
    | Option.some u => Option.some u
    | Option.none => tryCandList rest
termination_by l => (sizeOf l, 0)
decreasing_by
  · apply Prod.Lex.left
    have := list_sizeOf_pos rest
    simp only [List.cons.sizeOf_spec]
    omega
  · apply Prod.Lex.left
    simp only [List.cons.sizeOf_spec]
    omega

/-- One iteration of the candidate loop: recurse into containers, search
the text of everything else. -/
def tryCand : PyVal → Option String
  | PyVal.vdict d => extract_url (PyVal.vdict d)
  | PyVal.vlist l => extract_url (PyVal.vlist l)
  | c => searchText (candText c)
termination_by c => (sizeOf c + 1, 0)
decreasing_by
  all_goals apply Prod.Lex.left
  all_goals simp

end

/-- Model of `MCPManager.get_login_url` (mcp_manager.py lines 95-101),
parameterized by the raw result of the `login` tool call: extract a URL
from it; `if not url` (a `None` or empty extraction) raises, modelled as
`Except.error`. -/
def get_login_url (loginResult : PyVal) : Except String String :=
  match extract_url loginResult with
  | Option.some u =>
    if u = "" then Except.error "Could not extract login URL from MCP response"
    else Except.ok u
  | Option.none => Except.error "Could not extract login URL from MCP response"

/-! ### Holdings retrieval with retries (`MCPManager.get_holdings`) -/

/-- Post-processing of a normalized holdings payload (mcp_manager.py lines
112-118): unwrap a dict's `holdings` key; a non-list result becomes a
one-element list when it is a dict, else the empty list. -/
def holdingsShape (data : PyVal) : List PyVal :=
  let d1 := match data with
    | PyVal.vdict d =>
      if PyVal.dMem "holdings" d then PyVal.dGetV "holdings" d else PyVal.vdict d
    | v => v
  match d1 with
  | PyVal.vlist l => l
  | PyVal.vdict d => [PyVal.vdict d]
  | _ => []

/-- Outcome of a `get_holdings` call: the returned value or the raised
`RuntimeError` (carrying the configured retry count and the last
underlying error, exactly the data interpolated into its message), the
number of `call_tool` attempts made, and the list of `asyncio.sleep`
delays in order. -/
structure FetchOutcome where
  result : Except (Nat × Option String) (List PyVal)
  attempts : Nat
  delays : List Rat

/-- The `while attempt < retries` loop of `MCPManager.get_holdings`
(mcp_manager.py lines 103-123), parameterized by an oracle `call` giving
the outcome of the `attempt`-th `call_tool("get_holdings")` (an
`Except.error` stands for any exception raised by the underlying call).
On success the raw value is normalized and shaped and returned at once;
on failure the attempt counter is bumped and `backoff ** attempt` is
slept, after every failed attempt including the last. -/
def get_holdings_loop (call : Nat → Except String PyVal) (retries : Nat) (backoff : Rat)
    (attempt : Nat) (lastErr : Option String) (delays : List Rat) : FetchOutcome :=
  if attempt < retries then
    match call attempt with
    | Except.ok raw =>
      { result := Except.ok (holdingsShape (normalize_tool_result raw))
        attempts := attempt + 1
        delays := delays }
    | Except.error e =>
      get_holdings_loop call retries backoff (attempt + 1) (Option.some e)
        (delays ++ [backoff ^ (attempt + 1)])
  else
    { result := Except.error (retries, lastErr), attempts := attempt, delays := delays }
termination_by retries - attempt
decreasing_by omega

/-- Model of `MCPManager.get_holdings(retries, backoff)` (defaults 3 and
1.5 in the source). -/
def get_holdings (call : Nat → Except String PyVal) (retries : Nat) (backoff : Rat) :
    FetchOutcome :=
  get_holdings_loop call retries backoff 0 Option.none []

/-! ### Holdings enrichment (`mcp_holdings` endpoint, main.py lines 414-502) -/

/-- The `allowed_keys` set of the endpoint, in source-literal order (set
iteration order is irrelevant to every property proved here). -/
def allowedKeys : List String :=
  ["tradingsymbol", "price", "quantity", "t1_quantity", "opening_quantity",
   "average_price", "close_price", "pnl", "day_change", "day_change_percentage"]

/-- The tuple of numeric-designated keys coerced at the end of the loop
(main.py line 486), in source order. -/
def numericKeys : List String :=
  ["price", "quantity", "t1_quantity", "opening_quantity", "average_price",
   "close_price", "pnl", "day_change", "day_change_percentage"]

/-- The projection `o = \x7bk: item.get(k) for k in allowed_keys if k in item\x7d`. -/
def projectAllowed (item : List (String × PyVal)) : List (String × PyVal) :=
  allowedKeys.filterMap (fun k => (PyVal.dGet k item).map (fun v => (k, v)))

/-- The `_to_num`-coerced `price` helper of the loop body (main.py line
455): `_to_num(o.get("price", item.get("last_price") or item.get("close_price")))`. -/
def hPrice (item : List (String × PyVal)) : PyVal :=
  to_num ((PyVal.dGet "price" (projectAllowed item)).getD
    (PyVal.pyOr (PyVal.dGetV "last_price" item) (PyVal.dGetV "close_price" item)))

/-- The `close` helper (main.py line 456). -/
def hClose (item : List (String × PyVal)) : PyVal :=
  to_num ((PyVal.dGet "close_price" (projectAllowed item)).getD
    (PyVal.dGetV "close_price" item))

/-- The `avg` helper (main.py line 457). -/
def hAvg (item : List (String × PyVal)) : PyVal :=
  to_num ((PyVal.dGet "average_price" (projectAllowed item)).getD
    (PyVal.dGetV "average_price" item))

/-- The `qty` helper (main.py line 458). -/
def hQty (item : List (String × PyVal)) : PyVal :=
  to_num ((PyVal.dGet "quantity" (projectAllowed item)).getD
    (PyVal.dGetV "quantity" item))

/-- The alias chain `item.get("symbol") or item.get("ticker") or
item.get("company") or "-"` (main.py line 461). -/
def symFallback (item : List (String × PyVal)) : PyVal :=
  PyVal.pyOr
    (PyVal.pyOr (PyVal.pyOr (PyVal.dGetV "symbol" item) (PyVal.dGetV "ticker" item))
      (PyVal.dGetV "company" item))
    (PyVal.vstr "-")

/-- Fill `tradingsymbol` when absent (main.py lines 460-461). -/
def symStage (item o : List (String × PyVal)) : List (String × PyVal) :=
  if PyVal.dMem "tradingsymbol" o then o
  else PyVal.dSet "tradingsymbol" (symFallback item) o

/-- Derive `pnl` (main.py lines 463-467): only when absent and the three
coerced helpers are not `None`; an arithmetic `TypeError` is swallowed. -/
def pnlStage (item o : List (String × PyVal)) : List (String × PyVal) :=
  if ¬PyVal.dMem "pnl" o ∧ ¬(hPrice item).isNone ∧ ¬(hAvg item).isNone ∧
      ¬(hQty item).isNone then
    match (PyVal.pySub (hPrice item) (hAvg item)).bind
        (fun dv => PyVal.pyMul dv (hQty item)) with
    | Option.some v => PyVal.dSet "pnl" v o
    | Option.none => o
  else o

/-- Derive `day_change` (main.py lines 469-473). -/
def dayStage (item o : List (String × PyVal)) : List (String × PyVal) :=
  if ¬PyVal.dMem "day_change" o ∧ ¬(hPrice item).isNone ∧ ¬(hClose item).isNone then
    match PyVal.pySub (hPrice item) (hClose item) with
    | Option.some v => PyVal.dSet "day_change" v o
    | Option.none => o
  else o

/-- The `dc` computation inside the `try` of the percentage block: read
`o.get("day_change")` (a stored `None` reads as `None`), recomputing
`price - close` when it is `None` and both helpers are not; `none` stands
for a raise of that subtraction. -/
def dcpTry (item o : List (String × PyVal)) : Option PyVal :=
  let dc0 := PyVal.dGetV "day_change" o
  if dc0.isNone ∧ ¬(hPrice item).isNone ∧ ¬(hClose item).isNone then
    PyVal.pySub (hPrice item) (hClose item)
  else Option.some dc0

/-- Derive `day_change_percentage` (main.py lines 475-483): guarded by
`close not in (None, 0)`; inside the `try`, `dc` is read from the dict (a
stored `None` reads as `None`), recomputed from `price - close` when it is
`None` and both helpers are not, and the assignment happens only when `dc`
is not `None` and `close` is truthy; any raise in the block is swallowed. -/
def dcpStage (item o : List (String × PyVal)) : List (String × PyVal) :=
  if ¬PyVal.dMem "day_change_percentage" o ∧
      ¬((hClose item).isNone ∨ PyVal.eqZero (hClose item)) then
    match dcpTry item o with
    | Option.none => o
    | Option.some dc =>
      if ¬dc.isNone ∧ PyVal.truthy (hClose item) then
        match (PyVal.pyDiv dc (hClose item)).bind
            (fun x => PyVal.pyMul x (PyVal.vint 100)) with
        | Option.some v => PyVal.dSet "day_change_percentage" v o
        | Option.none => o
      else o
  else o

/-- The final coercion loop (main.py lines 486-488): every present
numeric-designated key is passed through `_to_num`, in tuple order. -/
def coerceStage (o : List (String × PyVal)) : List (String × PyVal) :=
  numericKeys.foldl
    (fun acc nk =>
      if PyVal.dMem nk acc then PyVal.dSet nk (to_num (PyVal.dGetV nk acc)) acc else acc)
    o

/-- Per-record body of the `mcp_holdings` loop (main.py lines 450-490):
project the allowed keys, fill `tradingsymbol` from the alias chain when
absent, derive `pnl`, `day_change` and `day_change_percentage` under the
source guards, then coerce the numeric-designated keys. -/
def enrichItem (item : List (String × PyVal)) : List (String × PyVal) :=
  coerceStage (dcpStage item (dayStage item (pnlStage item (symStage item
    (projectAllowed item)))))

/-- The whole filtering loop: non-dict records are skipped (`continue`),
dict records are enriched. -/
def enrichHoldings (raws : List PyVal) : List PyVal :=
  raws.filterMap (fun it =>
    match it with
    | PyVal.vdict d => Option.some (PyVal.vdict (enrichItem d))
    | _ => Option.none)

/-! ### The holdings endpoint cache (main.py lines 414-502) -/

/-- Observable outcome of one `GET /api/mcp/holdings` request: the HTTP
response value (or propagated error), the cache contents afterwards, and
whether `mcp_manager.get_holdings` was invoked. -/
structure HoldingsCallOut where
  response : Except (Nat × Option String) (List PyVal)
  cacheAfter : Option (List PyVal)
  invokedManager : Bool

/-- Model of one endpoint request, parameterized by the cache state and by
the outcome the session manager would produce if invoked.  With
`refresh = false` and a populated cache the cached list is returned
untouched; otherwise the manager is invoked and, on success, the enriched
result replaces the cache wholesale (on failure the error propagates and
the cache is left as it was). -/
def mcp_holdings_call (refresh : Bool) (cache : Option (List PyVal))
    (fetch : Except (Nat × Option String) (List PyVal)) : HoldingsCallOut :=
  match refresh, cache with
  | false, Option.some cached =>
    { response := Except.ok cached, cacheAfter := Option.some cached, invokedManager := false }
  | _, _ =>
    match fetch with
    | Except.error e =>
      { response := Except.error e, cacheAfter := cache, invokedManager := true }
    | Except.ok raw =>
      let filtered := enrichHoldings raw
      { response := Except.ok filtered, cacheAfter := Option.some filtered,
        invokedManager := true }

/-! ### Single-flight connection establishment (`MCPManager._ensure_client`)

The asyncio code (mcp_manager.py lines 73-85) is modelled as an
interleaving transition system over `n` cooperative tasks, each executing
`_ensure_client`: await the lock; under the lock either observe an
existing handle and return it, or assign a fresh handle (`self._client =
Client(...)`) and `await` its `__aenter__` — still under the lock — before
returning it.  Handles are numbered by creation order, so
`MgrState.creates` counts connection establishments. -/

/-- Program counter of one task running `_ensure_client`. -/
inductive TaskPC where
  | ready : TaskPC
  | inCS : TaskPC
  | creating (h : Nat) : TaskPC
  | finished (h : Nat) : TaskPC

/-- Shared state of the manager plus the per-task program counters. -/
structure MgrState (n : Nat) where
  lock : Option (Fin n)
  client : Option Nat
  creates : Nat
  tasks : Fin n → TaskPC

/-- Initial state: no lock holder, `self._client is None`, all tasks about
to call `_ensure_client`. -/
def initState (n : Nat) : MgrState n :=
  { lock := Option.none, client := Option.none, creates := 0, tasks := fun _ => TaskPC.ready }

/-- One interleaving step: some task acquires the free lock; a task
holding the lock either returns the existing handle (releasing the lock),
or — when `self._client is None` — installs a fresh handle and starts
`__aenter__`; a creating task completes `__aenter__` and returns its
handle (releasing the lock). -/
inductive MgrStep (n : Nat) : MgrState n → MgrState n → Prop where
  | acquire (t : Fin n) (s : MgrState n) :
      s.tasks t = TaskPC.ready → s.lock = Option.none →
      MgrStep n s { s with lock := Option.some t, tasks := Function.update s.tasks t TaskPC.inCS }
  | hit (t : Fin n) (s : MgrState n) (h : Nat) :
      s.tasks t = TaskPC.inCS → s.lock = Option.some t → s.client = Option.some h →
      MgrStep n s { s with lock := Option.none,
                           tasks := Function.update s.tasks t (TaskPC.finished h) }
  | create (t : Fin n) (s : MgrState n) :
      s.tasks t = TaskPC.inCS → s.lock = Option.some t → s.client = Option.none →
      MgrStep n s { s with client := Option.some s.creates,
                           creates := s.creates + 1,
                           tasks := Function.update s.tasks t (TaskPC.creating s.creates) }
  | finish (t : Fin n) (s : MgrState n) (h : Nat) :
      s.tasks t = TaskPC.creating h → s.lock = Option.some t →
      MgrStep n s { s with lock := Option.none,
                           tasks := Function.update s.tasks t (TaskPC.finished h) }

/-- States reachable from the initial state by interleaving. -/
def MgrReachable (n : Nat) (s : MgrState n) : Prop :=
  Relation.ReflTransGen (MgrStep n) (initState n) s

/-- The inductive invariant of the single-flight discipline. -/
def MgrInv {n : Nat} (s : MgrState n) : Prop :=
  s.creates ≤ 1 ∧
  (s.client = Option.none ↔ s.creates = 0) ∧
  (∀ t h, s.tasks t = TaskPC.finished h → s.client = Option.some h) ∧
  (∀ t h, s.tasks t = TaskPC.creating h →
    s.client = Option.some h ∧ s.lock = Option.some t) ∧
  (∀ t, s.tasks t = TaskPC.inCS → s.lock = Option.some t)

theorem mgrInv_init (n : Nat) : MgrInv (initState n) := by
  refine ⟨by simp [initState], by simp [initState], ?_, ?_, ?_⟩ <;>
    intro t <;> simp [initState]

theorem mgrInv_step {n : Nat} {s s' : MgrState n} (hs : MgrInv s)
    (hstep : MgrStep n s s') : MgrInv s' := by
  obtain ⟨h1, h2, h3, h4, h5⟩ := hs
  cases hstep with
  | acquire t _ hpc hlock =>
    refine ⟨h1, h2, ?_, ?_, ?_⟩
    · intro u h hu
      rcases eq_or_ne u t with rfl | hut
      · simp at hu
      · simp only [Function.update_noteq hut] at hu
        exact h3 u h hu
    · intro u h hu
      rcases eq_or_ne u t with rfl | hut
      · simp at hu
      · simp only [Function.update_noteq hut] at hu
        have hl := (h4 u h hu).2
        rw [hlock] at hl
        cases hl
    · intro u hu
      rcases eq_or_ne u t with rfl | hut
      · rfl
      · simp only [Function.update_noteq hut] at hu
        have hl := h5 u hu
        rw [hlock] at hl
        cases hl
  | hit t _ h hpc hlock hclient =>
    refine ⟨h1, h2, ?_, ?_, ?_⟩
    · intro u h' hu
      rcases eq_or_ne u t with rfl | hut
      · simp at hu
        subst hu
        exact hclient
      · simp only [Function.update_noteq hut] at hu
        exact h3 u h' hu
    · intro u h' hu
      rcases eq_or_ne u t with rfl | hut
      · simp at hu
      · simp only [Function.update_noteq hut] at hu
        have hl := (h4 u h' hu).2
        rw [hlock] at hl
        injection hl with hl
        exact absurd hl.symm hut
    · intro u hu
      rcases eq_or_ne u t with rfl | hut
      · simp at hu
      · simp only [Function.update_noteq hut] at hu
        have hl := h5 u hu
        rw [hlock] at hl
        injection hl with hl
        exact absurd hl.symm hut
  | create t _ hpc hlock hclient =>
    have hc0 : s.creates = 0 := h2.mp hclient
    refine ⟨by simp; omega, by simp, ?_, ?_, ?_⟩
    · intro u h' hu
      rcases eq_or_ne u t with rfl | hut
      · simp at hu
      · simp only [Function.update_noteq hut] at hu
        have hcl := h3 u h' hu
        rw [hclient] at hcl
        cases hcl
    · intro u h' hu
      rcases eq_or_ne u t with rfl | hut
      · simp at hu
        subst hu
        exact ⟨rfl, hlock⟩
      · simp only [Function.update_noteq hut] at hu
        have hcl := (h4 u h' hu).1
        rw [hclient] at hcl
        cases hcl
    · intro u hu
      rcases eq_or_ne u t with rfl | hut
      · simp at hu
      · simp only [Function.update_noteq hut] at hu
        exact h5 u hu
  | finish t _ h hpc hlock =>
    refine ⟨h1, h2, ?_, ?_, ?_⟩
    · intro u h' hu
      rcases eq_or_ne u t with rfl | hut
      · simp at hu
        subst hu
        exact (h4 _ _ hpc).1
      · simp only [Function.update_noteq hut] at hu
        exact h3 u h' hu
    · intro u h' hu
      rcases eq_or_ne u t with rfl | hut
      · simp at hu
      · simp only [Function.update_noteq hut] at hu
        have hl := (h4 u h' hu).2
        rw [hlock] at hl
        injection hl with hl
        exact absurd hl.symm hut
    · intro u hu
      rcases eq_or_ne u t with rfl | hut
      · simp at hu
      · simp only [Function.update_noteq hut] at hu
        have hl := h5 u hu
        rw [hlock] at hl
        injection hl with hl
        exact absurd hl.symm hut

theorem mgrInv_reachable {n : Nat} {s : MgrState n} (h : MgrReachable n s) : MgrInv s := by
  induction h with
  | refl => exact mgrInv_init n
  | tail _ hstep ih => exact mgrInv_step ih hstep

/-! ### Support lemmas about the dictionary model and the coercions -/

namespace PyVal

theorem dGet_dSet_same (k : String) (v : PyVal) (d : List (String × PyVal)) :
    dGet k (dSet k v d) = Option.some v := by
  induction d with
  | nil => simp [dGet, dSet]
  | cons p rest ih =>
    obtain ⟨k', w⟩ := p
    by_cases h : k' = k <;> simp [dGet, dSet, h, ih]

theorem dGet_dSet_ne {k' k : String} (h : k' ≠ k) (v : PyVal) (d : List (String × PyVal)) :
    dGet k' (dSet k v d) = dGet k' d := by
  induction d with
  | nil => simp [dGet, dSet, Ne.symm h]
  | cons p rest ih =>
    obtain ⟨k0, w⟩ := p
    by_cases h0 : k0 = k
    · subst h0
      simp [dGet, dSet, Ne.symm h]
    · simp [dGet, dSet, h0, ih]

theorem dMem_dSet_same (k : String) (v : PyVal) (d : List (String × PyVal)) :
    dMem k (dSet k v d) = true := by
  simp [dMem, dGet_dSet_same]

theorem dMem_dSet_ne {k' k : String} (h : k' ≠ k) (v : PyVal) (d : List (String × PyVal)) :
    dMem k' (dSet k v d) = dMem k' d := by
  simp [dMem, dGet_dSet_ne h]

theorem isNumber_not_isNone {v : PyVal} (h : isNumber v = true) : v.isNone = false := by
  cases v <;> simp_all [isNumber, isNone]

theorem asRat_isNumber {v : PyVal} {x : Rat} (h : asRat v = Option.some x) :
    isNumber v = true := by
  cases v <;> simp_all [asRat, isNumber]

end PyVal

theorem to_num_isNumber {v : PyVal} (h : PyVal.isNumber v = true) : to_num v = v := by
  cases v <;> simp_all [PyVal.isNumber, to_num]

theorem to_num_vnone : to_num PyVal.vnone = PyVal.vnone := rfl

theorem to_num_str (s : String) :
    to_num (PyVal.vstr s) =
      if pyStrip s = "" then PyVal.vnone
      else
        match parseFloat? (pyStrip s) with
        | Option.some q => PyVal.vfloat q
        | Option.none => PyVal.vstr s := rfl

theorem to_num_bytes (s : String) :
    to_num (PyVal.vbytes s) =
      if pyStrip s = "" then PyVal.vnone
      else
        match parseFloat? (pyStrip s) with
        | Option.some q => PyVal.vfloat q
        | Option.none => PyVal.vbytes s := rfl

theorem to_num_idem (v : PyVal) : to_num (to_num v) = to_num v := by
  cases v with
  | vnone => rfl
  | vbool b => rfl
  | vint n => rfl
  | vfloat q => rfl
  | vstr s =>
    rw [to_num_str]
    split_ifs with h
    · rfl
    · rcases hp : parseFloat? (pyStrip s) with _ | q
      · rw [to_num_str, if_neg h, hp]
      · rfl
  | vbytes s =>
    rw [to_num_bytes]
    split_ifs with h
    · rfl
    · rcases hp : parseFloat? (pyStrip s) with _ | q
      · rw [to_num_bytes, if_neg h, hp]
      · rfl
  | vlist l =>
    show to_num (to_num (PyVal.vlist l)) = to_num (PyVal.vlist l)
    rfl
  | vdict d =>
    show to_num (to_num (PyVal.vdict d)) = to_num (PyVal.vdict d)
    rfl

/-- Lookup in a key-projection built by `filterMap`: a listed key reads
through to the source record, every other key is absent. -/
theorem dGet_filterMapKeys (ks : List String) (item : List (String × PyVal)) (k : String) :
    PyVal.dGet k (ks.filterMap (fun k' => (PyVal.dGet k' item).map (fun v => (k', v)))) =
      if k ∈ ks then PyVal.dGet k item else Option.none := by
  induction ks with
  | nil => simp [PyVal.dGet]
  | cons k0 ks ih =>
    by_cases hk : k = k0
    · subst hk
      rcases h0 : PyVal.dGet k item with _ | v
      · simp only [List.filterMap_cons, h0, Option.map_none']
        rw [ih, h0]
        split_ifs <;> rfl
      · simp only [List.filterMap_cons, h0, Option.map_some']
        simp [PyVal.dGet, h0]
    · rcases h0 : PyVal.dGet k0 item with _ | v
      · simp only [List.filterMap_cons, h0, Option.map_none']
        rw [ih]
        simp [hk]
      · simp only [List.filterMap_cons, h0, Option.map_some']
        have hr : PyVal.dGet k
            ((k0, v) :: ks.filterMap (fun k' => (PyVal.dGet k' item).map (fun w => (k', w)))) =
            PyVal.dGet k
              (ks.filterMap (fun k' => (PyVal.dGet k' item).map (fun w => (k', w)))) := by
          show (if k0 = k then Option.some v else _) = _
          rw [if_neg (fun hc : k0 = k => hk hc.symm)]
        rw [hr, ih]
        simp [hk]

theorem dGet_projectAllowed (item : List (String × PyVal)) (k : String) :
    PyVal.dGet k (projectAllowed item) =
      if k ∈ allowedKeys then PyVal.dGet k item else Option.none :=
  dGet_filterMapKeys allowedKeys item k

/-- Lookup after the coercion fold: keys in the folded list are coerced
through `_to_num`, the rest read through unchanged. -/
theorem dGet_coerceFold (ks : List String) (o : List (String × PyVal)) (k : String) :
    PyVal.dGet k
      (ks.foldl (fun acc nk =>
        if PyVal.dMem nk acc then PyVal.dSet nk (to_num (PyVal.dGetV nk acc)) acc else acc) o) =
      if k ∈ ks then (PyVal.dGet k o).map to_num else PyVal.dGet k o := by
  induction ks generalizing o with
  | nil => simp
  | cons k0 ks ih =>
    simp only [List.foldl_cons]
    by_cases hk : k = k0
    · subst hk
      rcases h0 : PyVal.dGet k o with _ | v
      · have hm : PyVal.dMem k o = false := by simp [PyVal.dMem, h0]
        have hstep :
            (if PyVal.dMem k o then PyVal.dSet k (to_num (PyVal.dGetV k o)) o else o) = o := by
          simp [hm]
        rw [hstep, ih, h0]
        simp
      · have hm : PyVal.dMem k o = true := by simp [PyVal.dMem, h0]
        have hv : PyVal.dGetV k o = v := by simp [PyVal.dGetV, h0]
        have hstep :
            (if PyVal.dMem k o then PyVal.dSet k (to_num (PyVal.dGetV k o)) o else o) =
              PyVal.dSet k (to_num v) o := by
          simp [hm, hv]
        rw [hstep, ih]
        have hset := PyVal.dGet_dSet_same k (to_num v) o
        by_cases hin : k ∈ ks
        · rw [if_pos hin, hset, if_pos (List.mem_cons_self k ks)]
          simp [h0, to_num_idem]
        · rw [if_neg hin, hset, if_pos (List.mem_cons_self k ks)]
          simp [h0]
    · have hstep : PyVal.dGet k
          (if PyVal.dMem k0 o then PyVal.dSet k0 (to_num (PyVal.dGetV k0 o)) o else o) =
          PyVal.dGet k o := by
        split_ifs with hm0
        · exact PyVal.dGet_dSet_ne hk _ _
        · rfl
      rw [ih]
      by_cases hin : k ∈ ks
      · rw [if_pos hin, hstep]
        simp [hk, hin]
      · rw [if_neg hin, hstep]
        simp [hk, hin]

theorem dGet_coerceStage (o : List (String × PyVal)) (k : String) :
    PyVal.dGet k (coerceStage o) =
      if k ∈ numericKeys then (PyVal.dGet k o).map to_num else PyVal.dGet k o :=
  dGet_coerceFold numericKeys o k

/-! Stage lemmas: each derivation stage only touches its own key. -/

theorem dGet_symStage_ne {k : String} (h : k ≠ "tradingsymbol")
    (item o : List (String × PyVal)) : PyVal.dGet k (symStage item o) = PyVal.dGet k o := by
  unfold symStage
  split_ifs with hm
  · rfl
  · exact PyVal.dGet_dSet_ne h _ _

theorem dGet_pnlStage_ne {k : String} (h : k ≠ "pnl")
    (item o : List (String × PyVal)) : PyVal.dGet k (pnlStage item o) = PyVal.dGet k o := by
  unfold pnlStage
  split_ifs with hm
  · rcases (PyVal.pySub (hPrice item) (hAvg item)).bind
      (fun dv => PyVal.pyMul dv (hQty item)) with _ | v
    · rfl
    · exact PyVal.dGet_dSet_ne h _ _
  · rfl

theorem dGet_dayStage_ne {k : String} (h : k ≠ "day_change")
    (item o : List (String × PyVal)) : PyVal.dGet k (dayStage item o) = PyVal.dGet k o := by
  unfold dayStage
  split_ifs with hm
  · rcases PyVal.pySub (hPrice item) (hClose item) with _ | v
    · rfl
    · exact PyVal.dGet_dSet_ne h _ _
  · rfl

theorem dGet_dcpStage_ne {k : String} (h : k ≠ "day_change_percentage")
    (item o : List (String × PyVal)) : PyVal.dGet k (dcpStage item o) = PyVal.dGet k o := by
  unfold dcpStage
  split_ifs with hm
  · rcases hdc : dcpTry item o with _ | dc
    · rfl
    · simp only
      split_ifs with h2
    /- the division result drives one more match -/
      · rcases (PyVal.pyDiv dc (hClose item)).bind
          (fun x => PyVal.pyMul x (PyVal.vint 100)) with _ | v
        · rfl
        · exact PyVal.dGet_dSet_ne h _ _
      · rfl
  · rfl

/-! Arithmetic on numeric values. -/

theorem pySub_num {a b : PyVal} {x y : Rat} (ha : PyVal.asRat a = Option.some x)
    (hb : PyVal.asRat b = Option.some y) :
    ∃ c, PyVal.pySub a b = Option.some c ∧ PyVal.asRat c = Option.some (x - y) ∧
      PyVal.isNumber c = true := by
  cases a <;> cases b <;>
    simp_all [PyVal.asRat, PyVal.asInt, PyVal.pySub, PyVal.isNumber] <;>
    split_ifs <;> simp_all <;> push_cast <;> ring

theorem asInt_asRat {v : PyVal} {m : Int} (h : PyVal.asInt v = Option.some m) :
    PyVal.asRat v = Option.some (m : Rat) := by
  cases v with
  | vbool b =>
    cases b <;> simp [PyVal.asInt] at h <;> simp [PyVal.asRat, ← h]
  | vint n =>
    simp [PyVal.asInt] at h
    simp [PyVal.asRat, h]
  | vfloat q => simp [PyVal.asInt] at h
  | vnone => simp [PyVal.asInt] at h
  | vstr s => simp [PyVal.asInt] at h
  | vbytes s => simp [PyVal.asInt] at h
  | vlist l => simp [PyVal.asInt] at h
  | vdict d => simp [PyVal.asInt] at h

theorem asRat_noInt_float {v : PyVal} {x : Rat} (hr : PyVal.asRat v = Option.some x)
    (hi : PyVal.asInt v = Option.none) : v = PyVal.vfloat x := by
  cases v <;> simp_all [PyVal.asInt, PyVal.asRat]

theorem pyMul_num {a b : PyVal} {x y : Rat} (ha : PyVal.asRat a = Option.some x)
    (hb : PyVal.asRat b = Option.some y) :
    ∃ c, PyVal.pyMul a b = Option.some c ∧ PyVal.asRat c = Option.some (x * y) ∧
      PyVal.isNumber c = true := by
  rcases hia : PyVal.asInt a with _ | m <;> rcases hib : PyVal.asInt b with _ | n
  · have hfa := asRat_noInt_float ha hia
    have hfb := asRat_noInt_float hb hib
    subst hfa
    subst hfb
    refine ⟨PyVal.vfloat (x * y), ?_, rfl, rfl⟩
    simp [PyVal.pyMul, hia, hib, PyVal.asRat]
  · have hfa := asRat_noInt_float ha hia
    subst hfa
    refine ⟨PyVal.vfloat (x * y), ?_, rfl, rfl⟩
    simp [PyVal.pyMul, hia, hib, hb]
  · have hfb := asRat_noInt_float hb hib
    subst hfb
    refine ⟨PyVal.vfloat (x * y), ?_, rfl, rfl⟩
    simp [PyVal.pyMul, hia, hib, ha]
  · have hx : x = (m : Rat) := by
      have h' := asInt_asRat hia
      rw [h'] at ha
      exact (Option.some.injEq _ _).mp ha.symm
    have hy : y = (n : Rat) := by
      have h' := asInt_asRat hib
      rw [h'] at hb
      exact (Option.some.injEq _ _).mp hb.symm
    refine ⟨PyVal.vint (m * n), ?_, ?_, rfl⟩
    · simp [PyVal.pyMul, hia, hib]
    · simp only [PyVal.asRat, hx, hy, Option.some.injEq]
      push_cast
      ring

theorem pyDiv_num {a b : PyVal} {x y : Rat} (ha : PyVal.asRat a = Option.some x)
    (hb : PyVal.asRat b = Option.some y) (hy : y ≠ 0) :
    PyVal.pyDiv a b = Option.some (PyVal.vfloat (x / y)) := by
  simp [PyVal.pyDiv, ha, hb, hy]

/-! Positive stage lemmas. -/

theorem symStage_mem {item o : List (String × PyVal)}
    (hmem : PyVal.dMem "tradingsymbol" o = true) : symStage item o = o := by
  unfold symStage
  rw [if_pos hmem]

theorem dGet_symStage_fill {item o : List (String × PyVal)}
    (hmem : PyVal.dMem "tradingsymbol" o = false) :
    PyVal.dGet "tradingsymbol" (symStage item o) = Option.some (symFallback item) := by
  unfold symStage
  rw [if_neg (by simp [hmem])]
  exact PyVal.dGet_dSet_same _ _ _

theorem pnlStage_mem {item o : List (String × PyVal)}
    (hmem : PyVal.dMem "pnl" o = true) : pnlStage item o = o := by
  unfold pnlStage
  rw [if_neg (by simp [hmem])]

theorem dGet_pnlStage_compute {item o : List (String × PyVal)} {v : PyVal}
    (hmem : PyVal.dMem "pnl" o = false)
    (hp : (hPrice item).isNone = false) (ha : (hAvg item).isNone = false)
    (hq : (hQty item).isNone = false)
    (hcalc : (PyVal.pySub (hPrice item) (hAvg item)).bind
      (fun dv => PyVal.pyMul dv (hQty item)) = Option.some v) :
    PyVal.dGet "pnl" (pnlStage item o) = Option.some v := by
  unfold pnlStage
  rw [if_pos ⟨by simp [hmem], by simp [hp], by simp [ha], by simp [hq]⟩, hcalc]
  exact PyVal.dGet_dSet_same _ _ _

theorem dayStage_mem {item o : List (String × PyVal)}
    (hmem : PyVal.dMem "day_change" o = true) : dayStage item o = o := by
  unfold dayStage
  rw [if_neg (by simp [hmem])]

theorem dGet_dayStage_compute {item o : List (String × PyVal)} {v : PyVal}
    (hmem : PyVal.dMem "day_change" o = false)
    (hp : (hPrice item).isNone = false) (hc : (hClose item).isNone = false)
    (hcalc : PyVal.pySub (hPrice item) (hClose item) = Option.some v) :
    PyVal.dGet "day_change" (dayStage item o) = Option.some v := by
  unfold dayStage
  rw [if_pos ⟨by simp [hmem], by simp [hp], by simp [hc]⟩, hcalc]
  exact PyVal.dGet_dSet_same _ _ _

theorem dcpStage_skip {item o : List (String × PyVal)}
    (h : (hClose item).isNone = true ∨ PyVal.eqZero (hClose item) = true) :
    dcpStage item o = o := by
  unfold dcpStage
  rw [if_neg (fun hcon => hcon.2 h)]

theorem dcpStage_mem {item o : List (String × PyVal)}
    (hmem : PyVal.dMem "day_change_percentage" o = true) : dcpStage item o = o := by
  unfold dcpStage
  rw [if_neg (by simp [hmem])]

theorem dGet_dcpStage_compute {item o : List (String × PyVal)} {dc v : PyVal}
    (hmem : PyVal.dMem "day_change_percentage" o = false)
    (hcz : ¬((hClose item).isNone = true ∨ PyVal.eqZero (hClose item) = true))
    (htry : dcpTry item o = Option.some dc)
    (hdc : dc.isNone = false) (htr : PyVal.truthy (hClose item) = true)
    (hcalc : (PyVal.pyDiv dc (hClose item)).bind
      (fun x => PyVal.pyMul x (PyVal.vint 100)) = Option.some v) :
    PyVal.dGet "day_change_percentage" (dcpStage item o) = Option.some v := by
  unfold dcpStage
  rw [if_pos ⟨by simp [hmem], by simpa using hcz⟩, htry]
  simp only
  rw [if_pos ⟨by simp [hdc], htr⟩, hcalc]
  exact PyVal.dGet_dSet_same _ _ _

/-! ### Retry-loop lemmas (claim C1) -/

/-- The sleep sequence of a run of failing attempts: after the `i`-th
failing attempt (0-based, starting at attempt number `a`) the loop sleeps
`backoff ^ (a + i + 1)`. -/
def delaysFor (backoff : Rat) (a k : Nat) : List Rat :=
  (List.range k).map (fun i => backoff ^ (a + i + 1))

theorem delaysFor_zero (backoff : Rat) (a : Nat) : delaysFor backoff a 0 = [] := rfl

theorem delaysFor_succ (backoff : Rat) (a k : Nat) :
    delaysFor backoff a (k + 1) = backoff ^ (a + 1) :: delaysFor backoff (a + 1) k := by
  unfold delaysFor
  rw [List.range_succ_eq_map, List.map_cons, List.map_map]
  refine congrArg₂ _ (by norm_num) ?_
  apply List.map_congr_left
  intro i _
  show backoff ^ (a + (i + 1) + 1) = backoff ^ (a + 1 + i + 1)
  congr 1
  omega

theorem get_holdings_loop_fail {call : Nat → Except String PyVal} {err : Nat → String}
    (hfail : ∀ i, call i = Except.error (err i)) (backoff : Rat) :
    ∀ (k a : Nat) (le : Option String) (ds : List Rat),
      get_holdings_loop call (a + k) backoff a le ds =
        { result := Except.error (a + k,
            if k = 0 then le else Option.some (err (a + k - 1)))
          attempts := a + k
          delays := ds ++ delaysFor backoff a k } := by
  intro k
  induction k with
  | zero =>
    intro a le ds
    unfold get_holdings_loop
    rw [if_neg (by omega)]
    simp [delaysFor_zero]
  | succ k ih =>
    intro a le ds
    unfold get_holdings_loop
    rw [if_pos (by omega), hfail a]
    dsimp only
    have hretr : a + (k + 1) = (a + 1) + k := by omega
    rw [hretr, ih (a + 1) (Option.some (err a)) (ds ++ [backoff ^ (a + 1)])]
    rw [delaysFor_succ]
    rcases Nat.eq_zero_or_pos k with hk | hk
    · subst hk
      simp
    · have hne : ¬(k = 0) := by omega
      simp only [hne, if_false]
      have h1 : (a + 1) + k - 1 = a + (k + 1) - 1 := by omega
      have h2 : (a + 1) + k = a + (k + 1) := by omega
      rw [h1, h2, List.append_assoc]
      rfl

/-- Claim C1.  Against a backend whose every attempt raises, a
`get_holdings(retries, backoff)` call with `retries ≥ 1` makes exactly
`retries` underlying attempts, sleeps `backoff ^ i` after the `i`-th
failed attempt (`i = 1 .. retries`, so in particular between consecutive
attempts), and then raises the `RuntimeError` carrying the configured
retry count and the last underlying error; and if the first attempt
succeeds, the shaped result is returned after exactly one attempt with no
backoff sleep at all. -/
theorem claim_C1_retry_loop (retries : Nat) (hr : 1 ≤ retries) (backoff : Rat)
    (call : Nat → Except String PyVal) (err : Nat → String)
    (hfail : ∀ i, call i = Except.error (err i)) :
    get_holdings call retries backoff =
      { result := Except.error (retries, Option.some (err (retries - 1)))
        attempts := retries
        delays := delaysFor backoff 0 retries } ∧
    (∀ (call2 : Nat → Except String PyVal) (raw : PyVal), call2 0 = Except.ok raw →
      get_holdings call2 retries backoff =
        { result := Except.ok (holdingsShape (normalize_tool_result raw))
          attempts := 1
          delays := [] }) := by
  constructor
  · have h := get_holdings_loop_fail hfail backoff retries 0 Option.none []
    unfold get_holdings
    simp only [Nat.zero_add] at h
    rw [h]
    have hne : ¬(retries = 0) := by omega
    simp [hne]
  · intro call2 raw hok
    unfold get_holdings get_holdings_loop
    rw [if_pos (by omega), hok]

/-- Witness for C1 at `retries = 2`, `backoff = 2`, an always-failing
backend, and a first-attempt-successful backend returning `[]`. -/
theorem claim_C1_retry_loop_witness :
    (get_holdings (fun _ => Except.error "boom") 2 2 =
      { result := Except.error (2, Option.some "boom")
        attempts := 2
        delays := delaysFor 2 0 2 } ∧
    (∀ (call2 : Nat → Except String PyVal) (raw : PyVal), call2 0 = Except.ok raw →
      get_holdings call2 2 2 =
        { result := Except.ok (holdingsShape (normalize_tool_result raw))
          attempts := 1
          delays := [] })) ∧
    delaysFor 2 0 2 = [2, 4] ∧
    get_holdings (fun _ => Except.ok (PyVal.vstr "[]")) 2 2 =
      { result := Except.ok [], attempts := 1, delays := [] } := by
  refine ⟨claim_C1_retry_loop 2 (by omega) 2 _ (fun _ => "boom") (fun i => rfl), by decide, ?_⟩
  exact (claim_C1_retry_loop 2 (by omega) 2 (fun _ => Except.error "x") (fun _ => "x")
    (fun i => rfl)).2 _ (PyVal.vstr "[]") rfl

/-! ### Claims C7, C2, C9 -/

/-- Claim C7.  Once a successful fetch has populated the cache, a request
with `refresh = false` answers from the cache without invoking the session
manager and leaves the cache untouched; a request with `refresh = true`
always invokes the manager and, on success, replaces the cache wholesale
with the freshly enriched result. -/
theorem claim_C7_cache_behavior (cached : List PyVal)
    (fetch : Except (Nat × Option String) (List PyVal)) :
    mcp_holdings_call false (Option.some cached) fetch =
      { response := Except.ok cached, cacheAfter := Option.some cached,
        invokedManager := false } ∧
    (∀ (cache : Option (List PyVal)) (raw : List PyVal),
      mcp_holdings_call true cache (Except.ok raw) =
        { response := Except.ok (enrichHoldings raw),
          cacheAfter := Option.some (enrichHoldings raw), invokedManager := true }) := by
  refine ⟨rfl, fun cache raw => ?_⟩
  cases cache <;> rfl

/-- Counterexample to claim C2 as stated: normalization is NOT idempotent.
For the three-character input string `"1"` (a JSON-encoded string whose
payload is itself decodable), one normalization pass JSON-decodes it to
the string `1`, and a second pass decodes that to the integer `1`. -/
theorem claim_C2_counterexample :
    normalize_tool_result (PyVal.vstr "\"1\"") = PyVal.vstr "1" ∧
    normalize_tool_result (normalize_tool_result (PyVal.vstr "\"1\"")) = PyVal.vint 1 ∧
    normalize_tool_result (normalize_tool_result (PyVal.vstr "\"1\"")) ≠
      normalize_tool_result (PyVal.vstr "\"1\"") := by
  refine ⟨rfl, rfl, fun h => ?_⟩
  rw [show normalize_tool_result (normalize_tool_result (PyVal.vstr "\"1\"")) =
        PyVal.vint 1 from rfl,
      show normalize_tool_result (PyVal.vstr "\"1\"") = PyVal.vstr "1" from rfl] at h
  exact PyVal.noConfusion h

/-- Claim C2 (amended).  Tool-result normalization is deterministic (it is
a function of its input), and it is idempotent on every input whose
normalized value is neither a string that itself JSON-decodes nor a dict
containing a `content` key; a doubly JSON-encoded payload decodes once
more on a second pass, so unconditional idempotence fails. -/
theorem claim_C2_normalize_deterministic_and_conditionally_idempotent :
    (∀ x y : PyVal, x = y → normalize_tool_result x = normalize_tool_result y) ∧
    (∀ x : PyVal,
      (match normalize_tool_result x with
       | PyVal.vstr s => jsonLoads s = Option.none
       | PyVal.vdict d => PyVal.dMem "content" d = false
       | _ => True) →
      normalize_tool_result (normalize_tool_result x) = normalize_tool_result x) := by
  refine ⟨fun x y h => congrArg _ h, fun x h => ?_⟩
  rcases hv : normalize_tool_result x with _ | b | n | q | s | s | l | d
  · rfl
  · rfl
  · rfl
  · rfl
  · rw [hv] at h
    simp only at h
    show (match jsonLoads s with
          | Option.some v => v
          | Option.none => PyVal.vstr s) = PyVal.vstr s
    rw [h]
  · rfl
  · rfl
  · rw [hv] at h
    simp only at h
    have hg : PyVal.dGet "content" d = Option.none := by
      rcases hg : PyVal.dGet "content" d with _ | v
      · rfl
      · unfold PyVal.dMem at h
        rw [hg] at h
        simp at h
    show normalize_tool_result (PyVal.vdict d) = PyVal.vdict d
    unfold normalize_tool_result
    dsimp only
    rw [hg]

/-- Witness for the amended C2 at concrete inputs: a non-decodable string
and a content-free dict are fixed points of normalization. -/
theorem claim_C2_amended_witness :
    normalize_tool_result (normalize_tool_result (PyVal.vstr "hello")) =
      normalize_tool_result (PyVal.vstr "hello") ∧
    normalize_tool_result
        (normalize_tool_result (PyVal.vdict [("url", PyVal.vstr "https://x")])) =
      normalize_tool_result (PyVal.vdict [("url", PyVal.vstr "https://x")]) := by
  constructor
  · exact claim_C2_normalize_deterministic_and_conditionally_idempotent.2
      (PyVal.vstr "hello") (by rfl)
  · exact claim_C2_normalize_deterministic_and_conditionally_idempotent.2
      (PyVal.vdict [("url", PyVal.vstr "https://x")]) (by rfl)

/-- Claim C9.  In every state reachable by any interleaving of concurrent
first-time `_ensure_client` callers, at most one connection establishment
has happened; every caller that has returned observed the one live handle
(so once any caller has returned, exactly one establishment has occurred),
and any two finished callers observed the same handle. -/
theorem claim_C9_single_flight (n : Nat) (s : MgrState n) (h : MgrReachable n s) :
    s.creates ≤ 1 ∧
    (∀ t h', s.tasks t = TaskPC.finished h' →
      s.client = Option.some h' ∧ s.creates = 1) ∧
    (∀ t t' h1 h2, s.tasks t = TaskPC.finished h1 → s.tasks t' = TaskPC.finished h2 →
      h1 = h2) := by
  obtain ⟨i1, i2, i3, _, _⟩ := mgrInv_reachable h
  refine ⟨i1, ?_, ?_⟩
  · intro t h' ht
    have hc := i3 t h' ht
    refine ⟨hc, ?_⟩
    rcases Nat.eq_zero_or_pos s.creates with h0 | hpos
    · have hnone := i2.mpr h0
      rw [hc] at hnone
      cases hnone
    · omega
  · intro t t' h1 h2 ht ht'
    have c1 := i3 t h1 ht
    have c2 := i3 t' h2 ht'
    rw [c1] at c2
    exact Option.some.inj c2

/-- Intermediate states of a concrete two-task interleaving used to
witness C9: task 0 acquires, creates, finishes; then task 1 acquires and
observes the existing handle. -/
def mgrDemo1 : MgrState 2 :=
  { initState 2 with
      lock := Option.some 0
      tasks := Function.update (initState 2).tasks 0 TaskPC.inCS }

def mgrDemo2 : MgrState 2 :=
  { mgrDemo1 with
      client := Option.some mgrDemo1.creates
      creates := mgrDemo1.creates + 1
      tasks := Function.update mgrDemo1.tasks 0 (TaskPC.creating mgrDemo1.creates) }

def mgrDemo3 : MgrState 2 :=
  { mgrDemo2 with
      lock := Option.none
      tasks := Function.update mgrDemo2.tasks 0 (TaskPC.finished 0) }

def mgrDemo4 : MgrState 2 :=
  { mgrDemo3 with
      lock := Option.some 1
      tasks := Function.update mgrDemo3.tasks 1 TaskPC.inCS }

def mgrDemo5 : MgrState 2 :=
  { mgrDemo4 with
      lock := Option.none
      tasks := Function.update mgrDemo4.tasks 1 (TaskPC.finished 0) }

/-- Witness for C9: a full two-task interleaving is reachable, and in its
final state exactly one establishment has occurred and both tasks hold the
same handle. -/
theorem claim_C9_single_flight_witness :
    MgrReachable 2 mgrDemo5 ∧ mgrDemo5.creates ≤ 1 ∧ mgrDemo5.creates = 1 ∧
    mgrDemo5.tasks 0 = TaskPC.finished 0 ∧ mgrDemo5.tasks 1 = TaskPC.finished 0 := by
  have hreach : MgrReachable 2 mgrDemo5 := by
    refine Relation.ReflTransGen.tail (Relation.ReflTransGen.tail
      (Relation.ReflTransGen.tail (Relation.ReflTransGen.tail
        (Relation.ReflTransGen.tail Relation.ReflTransGen.refl
          (MgrStep.acquire 0 (initState 2) rfl rfl))
        (MgrStep.create 0 mgrDemo1 (by simp [mgrDemo1, initState]) rfl rfl))
      (MgrStep.finish 0 mgrDemo2 0 (by simp [mgrDemo2, mgrDemo1, initState]) rfl))
    (MgrStep.acquire 1 mgrDemo3 (by simp [mgrDemo3, mgrDemo2, mgrDemo1, initState,
      Function.update]) rfl)) (MgrStep.hit 1 mgrDemo4 0 (by simp [mgrDemo4, mgrDemo3, mgrDemo2, mgrDemo1, initState, Function.update]) rfl rfl)
  exact ⟨hreach, (claim_C9_single_flight 2 mgrDemo5 hreach).1, rfl, rfl, rfl⟩

/-! ### Claims C5, C6, C10 -/

theorem isNone_false_of_asRat {v : PyVal} {c : Rat}
    (h : PyVal.asRat v = Option.some c) : v.isNone = false := by
  cases v <;> simp_all [PyVal.asRat, PyVal.isNone]

theorem truthy_of_asRat_ne {v : PyVal} {c : Rat}
    (h : PyVal.asRat v = Option.some c) (hc : c ≠ 0) : PyVal.truthy v = true := by
  cases v with
  | vbool b => cases b <;> simp_all [PyVal.asRat, PyVal.truthy]
  | vint n =>
    have he : (n : Rat) = c := by simpa [PyVal.asRat] using h
    have hn : n ≠ 0 := by
      intro h0
      rw [h0] at he
      exact hc (by simpa using he.symm)
    simp [PyVal.truthy, hn]
  | vfloat q =>
    have he : q = c := by simpa [PyVal.asRat] using h
    have hn : q ≠ 0 := fun h0 => hc (by rw [← he, h0])
    simp [PyVal.truthy, hn]
  | vnone => simp [PyVal.asRat] at h
  | vstr s => simp [PyVal.asRat] at h
  | vbytes s => simp [PyVal.asRat] at h
  | vlist l => simp [PyVal.asRat] at h
  | vdict d => simp [PyVal.asRat] at h

theorem eqZero_false_of_asRat_ne {v : PyVal} {c : Rat}
    (h : PyVal.asRat v = Option.some c) (hc : c ≠ 0) : PyVal.eqZero v = false := by
  cases v with
  | vbool b => cases b <;> simp_all [PyVal.asRat, PyVal.eqZero]
  | vint n =>
    have he : (n : Rat) = c := by simpa [PyVal.asRat] using h
    have hn : n ≠ 0 := by
      intro h0
      rw [h0] at he
      exact hc (by simpa using he.symm)
    simp [PyVal.eqZero, hn]
  | vfloat q =>
    have he : q = c := by simpa [PyVal.asRat] using h
    have hn : q ≠ 0 := fun h0 => hc (by rw [← he, h0])
    simp [PyVal.eqZero, hn]
  | vnone => simp [PyVal.asRat] at h
  | vstr s => simp [PyVal.asRat] at h
  | vbytes s => simp [PyVal.asRat] at h
  | vlist l => simp [PyVal.asRat] at h
  | vdict d => simp [PyVal.asRat] at h

/-- Read-through of the three later stages for the key `pnl`. -/
theorem dGet_enrich_pnl (item : List (String × PyVal)) :
    PyVal.dGet "pnl" (enrichItem item) =
      (PyVal.dGet "pnl"
        (pnlStage item (symStage item (projectAllowed item)))).map to_num := by
  unfold enrichItem
  rw [dGet_coerceStage, if_pos (by decide),
    dGet_dcpStage_ne (by decide), dGet_dayStage_ne (by decide)]

/-- Read-through to the source record for the key `pnl` before its stage. -/
theorem dGet_pre_pnl (item : List (String × PyVal)) :
    PyVal.dGet "pnl" (symStage item (projectAllowed item)) = PyVal.dGet "pnl" item := by
  rw [dGet_symStage_ne (by decide), dGet_projectAllowed, if_pos (by decide)]

/-- Read-through of the later stages for the key `day_change`. -/
theorem dGet_enrich_day (item : List (String × PyVal)) :
    PyVal.dGet "day_change" (enrichItem item) =
      (PyVal.dGet "day_change"
        (dayStage item (pnlStage item (symStage item (projectAllowed item))))).map to_num := by
  unfold enrichItem
  rw [dGet_coerceStage, if_pos (by decide), dGet_dcpStage_ne (by decide)]

theorem dGet_pre_day (item : List (String × PyVal)) :
    PyVal.dGet "day_change" (pnlStage item (symStage item (projectAllowed item))) =
      PyVal.dGet "day_change" item := by
  rw [dGet_pnlStage_ne (by decide), dGet_symStage_ne (by decide),
    dGet_projectAllowed, if_pos (by decide)]

/-- Read-through of the coercion stage for `day_change_percentage`. -/
theorem dGet_enrich_dcp (item : List (String × PyVal)) :
    PyVal.dGet "day_change_percentage" (enrichItem item) =
      (PyVal.dGet "day_change_percentage"
        (dcpStage item (dayStage item (pnlStage item (symStage item
          (projectAllowed item)))))).map to_num := by
  unfold enrichItem
  rw [dGet_coerceStage, if_pos (by decide)]

theorem dGet_pre_dcp (item : List (String × PyVal)) :
    PyVal.dGet "day_change_percentage"
        (dayStage item (pnlStage item (symStage item (projectAllowed item)))) =
      PyVal.dGet "day_change_percentage" item := by
  rw [dGet_dayStage_ne (by decide), dGet_pnlStage_ne (by decide),
    dGet_symStage_ne (by decide), dGet_projectAllowed, if_pos (by decide)]

/-- Counterexample to claim C5 as stated.  The coercion does NOT map
unparseable strings to a numeric absence: `_to_num("abc")` returns the
string unchanged, and the holdings endpoint therefore emits a record whose
numeric-designated `price` key still holds the string `abc`. -/
theorem claim_C5_counterexample :
    enrichHoldings [PyVal.vdict [("price", PyVal.vstr "abc")]] =
      [PyVal.vdict [("price", PyVal.vstr "abc"), ("tradingsymbol", PyVal.vstr "-")]] ∧
    to_num (PyVal.vstr "abc") = PyVal.vstr "abc" ∧
    PyVal.isNumber (PyVal.vstr "abc") = false ∧
    PyVal.vstr "abc" ≠ PyVal.vnone := by
  refine ⟨rfl, rfl, rfl, fun h => PyVal.noConfusion h⟩

/-- Claim C5 (amended).  Every numeric-designated key present in an output
holding record went through `_to_num` and is a fixed point of it: numbers
pass through unchanged, non-empty parseable strings have been parsed to
floats, empty strings have become a numeric absence — but a non-empty
UNPARSEABLE string is kept verbatim rather than mapped to an absence. -/
theorem claim_C5_numeric_coercion (item : List (String × PyVal)) (k : String)
    (hk : k ∈ numericKeys) (w : PyVal)
    (hw : PyVal.dGet k (enrichItem item) = Option.some w) :
    to_num w = w ∧
    (∀ v : PyVal, PyVal.isNumber v = true → to_num v = v) ∧
    (∀ s : String, pyStrip s = "" → to_num (PyVal.vstr s) = PyVal.vnone) ∧
    (∀ s q, pyStrip s ≠ "" → parseFloat? (pyStrip s) = Option.some q →
      to_num (PyVal.vstr s) = PyVal.vfloat q) ∧
    (∀ s, pyStrip s ≠ "" → parseFloat? (pyStrip s) = Option.none →
      to_num (PyVal.vstr s) = PyVal.vstr s) := by
  refine ⟨?_, fun v hv => to_num_isNumber hv, ?_, ?_, ?_⟩
  · unfold enrichItem at hw
    rw [dGet_coerceStage, if_pos hk] at hw
    rcases hu : PyVal.dGet k (dcpStage item (dayStage item (pnlStage item
        (symStage item (projectAllowed item))))) with _ | u
    · rw [hu] at hw
      cases hw
    · rw [hu] at hw
      simp only [Option.map_some'] at hw
      cases hw
      exact to_num_idem u
  · intro s h
    rw [to_num_str, if_pos h]
  · intro s q h hq
    rw [to_num_str, if_neg h, hq]
  · intro s h hq
    rw [to_num_str, if_neg h, hq]

/-- Witness for the amended C5: an integer price passes through the
pipeline unchanged and is a `_to_num` fixed point. -/
theorem claim_C5_numeric_coercion_witness :
    to_num (PyVal.vint 7) = PyVal.vint 7 ∧
    PyVal.dGet "price" (enrichItem [("price", PyVal.vint 7)]) =
      Option.some (PyVal.vint 7) := by
  refine ⟨?_, rfl⟩
  exact (claim_C5_numeric_coercion [("price", PyVal.vint 7)] "price"
    (by simp [numericKeys]) (PyVal.vint 7) rfl).1

/-- Counterexample to claim C6 as stated.  `pnl` is NOT computed "only
when all three inputs are numeric": with integer `price`/`average_price`
and the non-numeric string quantity `ab`, Python's `(110 - 100) * "ab"`
is sequence repetition, and the endpoint stores the string
`abababababababababab` under `pnl`. -/
theorem claim_C6_counterexample :
    PyVal.dGet "pnl" (enrichItem
      [("price", PyVal.vint 110), ("average_price", PyVal.vint 100),
       ("quantity", PyVal.vstr "ab")]) =
      Option.some (PyVal.vstr "abababababababababab") ∧
    PyVal.isNumber (PyVal.vstr "ab") = false ∧
    PyVal.dMem "pnl"
      [("price", PyVal.vint 110), ("average_price", PyVal.vint 100),
       ("quantity", PyVal.vstr "ab")] = false := ⟨rfl, rfl, rfl⟩

/-- Claim C6 (amended).  The derived-field rules of the holdings loop:
`pnl = (price - average_price) * quantity` is stored whenever `pnl` is
absent from the source, the three coerced helpers are non-`None`, and the
Python arithmetic succeeds — in particular (and exactly as the claim
intends) whenever all three are numeric, in which case the stored value is
the number `(p - a) * q`; with an integer price/average and a string
quantity the arithmetic instead succeeds by sequence repetition (see the
counterexample), so "only when all three inputs are numeric" fails.
`day_change = price - close_price` is stored under the analogous presence
rule (and, being a true subtraction, genuinely requires numeric operands);
`day_change_percentage = day_change / close_price * 100` is computed only
when `close_price` is present and non-zero — an absent or zero close
leaves the field omitted and no division by zero can occur; and a value
already present in the source is never replaced by a derived computation
(it is only passed through the `_to_num` coercion). -/
theorem claim_C6_derived_fields :
    (∀ (item : List (String × PyVal)) (p a q : Rat),
      PyVal.dMem "pnl" item = false →
      PyVal.asRat (hPrice item) = Option.some p →
      PyVal.asRat (hAvg item) = Option.some a →
      PyVal.asRat (hQty item) = Option.some q →
      ∃ w, PyVal.dGet "pnl" (enrichItem item) = Option.some w ∧
        PyVal.asRat w = Option.some ((p - a) * q)) ∧
    (∀ (item : List (String × PyVal)) (w : PyVal),
      PyVal.dGet "pnl" item = Option.some w →
      PyVal.dGet "pnl" (enrichItem item) = Option.some (to_num w)) ∧
    (∀ (item : List (String × PyVal)) (p c : Rat),
      PyVal.dMem "day_change" item = false →
      PyVal.asRat (hPrice item) = Option.some p →
      PyVal.asRat (hClose item) = Option.some c →
      ∃ w, PyVal.dGet "day_change" (enrichItem item) = Option.some w ∧
        PyVal.asRat w = Option.some (p - c)) ∧
    (∀ (item : List (String × PyVal)) (w : PyVal),
      PyVal.dGet "day_change" item = Option.some w →
      PyVal.dGet "day_change" (enrichItem item) = Option.some (to_num w)) ∧
    (∀ item : List (String × PyVal),
      PyVal.dMem "day_change_percentage" item = false →
      ((hClose item).isNone = true ∨ PyVal.eqZero (hClose item) = true) →
      PyVal.dGet "day_change_percentage" (enrichItem item) = Option.none) ∧
    (∀ (item : List (String × PyVal)) (w : PyVal),
      PyVal.dGet "day_change_percentage" item = Option.some w →
      PyVal.dGet "day_change_percentage" (enrichItem item) = Option.some (to_num w)) ∧
    (∀ (item : List (String × PyVal)) (p c : Rat),
      PyVal.dMem "day_change_percentage" item = false →
      PyVal.dMem "day_change" item = false →
      PyVal.asRat (hPrice item) = Option.some p →
      PyVal.asRat (hClose item) = Option.some c → c ≠ 0 →
      ∃ w, PyVal.dGet "day_change_percentage" (enrichItem item) = Option.some w ∧
        PyVal.asRat w = Option.some ((p - c) / c * 100)) ∧
    PyVal.dGet "pnl" (enrichItem
      [("price", PyVal.vint 110), ("average_price", PyVal.vint 100),
       ("quantity", PyVal.vint 10)]) = Option.some (PyVal.vint 100) := by
  refine ⟨?_, ?_, ?_, ?_, ?_, ?_, ?_, rfl⟩
  · -- pnl computed from numeric inputs
    intro item p a q hmem hp ha hq
    obtain ⟨c1, hsub, hrc1, hn1⟩ := pySub_num hp ha
    obtain ⟨v, hmul, hrv, hnv⟩ := pyMul_num hrc1 hq
    have hmem2 : PyVal.dMem "pnl" (symStage item (projectAllowed item)) = false := by
      unfold PyVal.dMem at hmem ⊢
      rw [dGet_pre_pnl]
      exact hmem
    have hcalc : (PyVal.pySub (hPrice item) (hAvg item)).bind
        (fun dv => PyVal.pyMul dv (hQty item)) = Option.some v := by
      rw [hsub]
      exact hmul
    refine ⟨v, ?_, hrv⟩
    rw [dGet_enrich_pnl,
      dGet_pnlStage_compute hmem2 (isNone_false_of_asRat hp)
        (isNone_false_of_asRat ha) (isNone_false_of_asRat hq) hcalc,
      Option.map_some', to_num_isNumber hnv]
  · -- pnl present in the source is never overwritten
    intro item w hw
    have hmem2 : PyVal.dMem "pnl" (symStage item (projectAllowed item)) = true := by
      unfold PyVal.dMem
      rw [dGet_pre_pnl, hw]
      rfl
    rw [dGet_enrich_pnl, pnlStage_mem hmem2, dGet_pre_pnl, hw, Option.map_some']
  · -- day_change computed from numeric inputs
    intro item p c hmem hp hc
    obtain ⟨v, hsub, hrv, hnv⟩ := pySub_num hp hc
    have hmem2 : PyVal.dMem "day_change"
        (pnlStage item (symStage item (projectAllowed item))) = false := by
      unfold PyVal.dMem at hmem ⊢
      rw [dGet_pre_day]
      exact hmem
    refine ⟨v, ?_, hrv⟩
    rw [dGet_enrich_day,
      dGet_dayStage_compute hmem2 (isNone_false_of_asRat hp)
        (isNone_false_of_asRat hc) hsub,
      Option.map_some', to_num_isNumber hnv]
  · -- day_change present in the source is never overwritten
    intro item w hw
    have hmem2 : PyVal.dMem "day_change"
        (pnlStage item (symStage item (projectAllowed item))) = true := by
      unfold PyVal.dMem
      rw [dGet_pre_day, hw]
      rfl
    rw [dGet_enrich_day, dayStage_mem hmem2, dGet_pre_day, hw, Option.map_some']
  · -- absent-or-zero close leaves day_change_percentage omitted
    intro item hmem hz
    rw [dGet_enrich_dcp, dcpStage_skip hz, dGet_pre_dcp]
    unfold PyVal.dMem at hmem
    rcases hg : PyVal.dGet "day_change_percentage" item with _ | w
    · rfl
    · rw [hg] at hmem
      simp at hmem
  · -- day_change_percentage present in the source is never overwritten
    intro item w hw
    have hmem2 : PyVal.dMem "day_change_percentage"
        (dayStage item (pnlStage item (symStage item (projectAllowed item)))) = true := by
      unfold PyVal.dMem
      rw [dGet_pre_dcp, hw]
      rfl
    rw [dGet_enrich_dcp, dcpStage_mem hmem2, dGet_pre_dcp, hw, Option.map_some']
  · -- day_change_percentage computed from numeric inputs with nonzero close
    intro item p c hmemP hmemD hp hc hcne
    obtain ⟨v1, hsub, hrv1, hnv1⟩ := pySub_num hp hc
    have hmemD2 : PyVal.dMem "day_change"
        (pnlStage item (symStage item (projectAllowed item))) = false := by
      unfold PyVal.dMem at hmemD ⊢
      rw [dGet_pre_day]
      exact hmemD
    have hday : PyVal.dGet "day_change"
        (dayStage item (pnlStage item (symStage item (projectAllowed item)))) =
        Option.some v1 :=
      dGet_dayStage_compute hmemD2 (isNone_false_of_asRat hp)
        (isNone_false_of_asRat hc) hsub
    have hmemP2 : PyVal.dMem "day_change_percentage"
        (dayStage item (pnlStage item (symStage item (projectAllowed item)))) = false := by
      unfold PyVal.dMem at hmemP ⊢
      rw [dGet_pre_dcp]
      exact hmemP
    have hn1 : v1.isNone = false := isNone_false_of_asRat hrv1
    have htry : dcpTry item
        (dayStage item (pnlStage item (symStage item (projectAllowed item)))) =
        Option.some v1 := by
      unfold dcpTry
      have hv : PyVal.dGetV "day_change"
          (dayStage item (pnlStage item (symStage item (projectAllowed item)))) = v1 := by
        unfold PyVal.dGetV
        rw [hday]
        rfl
      rw [hv, if_neg (by rw [hn1]; simp)]
    have hdiv : PyVal.pyDiv v1 (hClose item) =
        Option.some (PyVal.vfloat ((p - c) / c)) := pyDiv_num hrv1 hc hcne
    have h100 : PyVal.asRat (PyVal.vint 100) = Option.some ((100 : Int) : Rat) := rfl
    obtain ⟨w, hmul, hrw, hnw⟩ :=
      pyMul_num (show PyVal.asRat (PyVal.vfloat ((p - c) / c)) =
        Option.some ((p - c) / c) from rfl) h100
    have hcalc : (PyVal.pyDiv v1 (hClose item)).bind
        (fun x => PyVal.pyMul x (PyVal.vint 100)) = Option.some w := by
      rw [hdiv]
      exact hmul
    refine ⟨w, ?_, ?_⟩
    · rw [dGet_enrich_dcp,
        dGet_dcpStage_compute hmemP2
          (by
            rw [isNone_false_of_asRat hc, eqZero_false_of_asRat_ne hc hcne]
            simp)
          htry hn1 (truthy_of_asRat_ne hc hcne) hcalc,
        Option.map_some', to_num_isNumber hnw]
    · rw [hrw]
      norm_num
  

/-- Witness for the amended C6: the never-overwrite clause applied to a
record that already carries `pnl`, and the omission clause applied to the
zero-close record from the claim's own example. -/
theorem claim_C6_derived_fields_witness :
    PyVal.dGet "pnl" (enrichItem [("pnl", PyVal.vint 7)]) =
      Option.some (to_num (PyVal.vint 7)) ∧
    PyVal.dGet "day_change_percentage"
      (enrichItem [("price", PyVal.vint 100), ("close_price", PyVal.vint 0)]) =
      Option.none := by
  constructor
  · exact claim_C6_derived_fields.2.1 [("pnl", PyVal.vint 7)] (PyVal.vint 7) rfl
  · exact claim_C6_derived_fields.2.2.2.2.1
      [("price", PyVal.vint 100), ("close_price", PyVal.vint 0)] rfl (Or.inr rfl)

/-- Read-through of the three derivation stages and the coercion for the
key `tradingsymbol` (which is not numeric-designated). -/
theorem dGet_enrich_sym (item : List (String × PyVal)) :
    PyVal.dGet "tradingsymbol" (enrichItem item) =
      PyVal.dGet "tradingsymbol" (symStage item (projectAllowed item)) := by
  unfold enrichItem
  rw [dGet_coerceStage, if_neg (by decide), dGet_dcpStage_ne (by decide),
    dGet_dayStage_ne (by decide), dGet_pnlStage_ne (by decide)]

theorem dGet_project_sym (item : List (String × PyVal)) :
    PyVal.dGet "tradingsymbol" (projectAllowed item) =
      PyVal.dGet "tradingsymbol" item := by
  rw [dGet_projectAllowed, if_pos (by decide)]

/-- Counterexample to claim C10 as stated.  The alias fallback tests
truthiness, not presence: with `symbol` present but equal to the empty
string, the output `tradingsymbol` is the placeholder `-`, not the present
`symbol` value. -/
theorem claim_C10_counterexample :
    PyVal.dGet "tradingsymbol" (enrichItem [("symbol", PyVal.vstr "")]) =
      Option.some (PyVal.vstr "-") ∧
    PyVal.dGet "symbol" [("symbol", PyVal.vstr "")] = Option.some (PyVal.vstr "") ∧
    PyVal.vstr "-" ≠ PyVal.vstr "" := by
  refine ⟨rfl, rfl, fun h => ?_⟩
  injection h with h'
  exact absurd h' (by decide)

/-- Claim C10 (amended).  Every record emitted by the holdings endpoint
carries a `tradingsymbol` key; non-mapping source records are dropped
entirely; and when the source lacks `tradingsymbol` it is filled with the
first TRUTHY value among `symbol`, `ticker`, `company` in that order
(falsy present values such as the empty string are skipped), with the
placeholder `-` when none of the three is truthy. -/
theorem claim_C10_tradingsymbol :
    (∀ item : List (String × PyVal),
      PyVal.dMem "tradingsymbol" (enrichItem item) = true) ∧
    (∀ (v : PyVal) (raws1 raws2 : List PyVal), (∀ d, v ≠ PyVal.vdict d) →
      enrichHoldings (raws1 ++ v :: raws2) = enrichHoldings (raws1 ++ raws2)) ∧
    (∀ item : List (String × PyVal), PyVal.dMem "tradingsymbol" item = false →
      PyVal.truthy (PyVal.dGetV "symbol" item) = true →
      PyVal.dGet "tradingsymbol" (enrichItem item) =
        Option.some (PyVal.dGetV "symbol" item)) ∧
    (∀ item : List (String × PyVal), PyVal.dMem "tradingsymbol" item = false →
      PyVal.truthy (PyVal.dGetV "symbol" item) = false →
      PyVal.truthy (PyVal.dGetV "ticker" item) = true →
      PyVal.dGet "tradingsymbol" (enrichItem item) =
        Option.some (PyVal.dGetV "ticker" item)) ∧
    (∀ item : List (String × PyVal), PyVal.dMem "tradingsymbol" item = false →
      PyVal.truthy (PyVal.dGetV "symbol" item) = false →
      PyVal.truthy (PyVal.dGetV "ticker" item) = false →
      PyVal.truthy (PyVal.dGetV "company" item) = true →
      PyVal.dGet "tradingsymbol" (enrichItem item) =
        Option.some (PyVal.dGetV "company" item)) ∧
    (∀ item : List (String × PyVal), PyVal.dMem "tradingsymbol" item = false →
      PyVal.truthy (PyVal.dGetV "symbol" item) = false →
      PyVal.truthy (PyVal.dGetV "ticker" item) = false →
      PyVal.truthy (PyVal.dGetV "company" item) = false →
      PyVal.dGet "tradingsymbol" (enrichItem item) =
        Option.some (PyVal.vstr "-")) := by
  have hfill : ∀ item : List (String × PyVal), PyVal.dMem "tradingsymbol" item = false →
      PyVal.dGet "tradingsymbol" (enrichItem item) = Option.some (symFallback item) := by
    intro item hmem
    have hmem0 : PyVal.dMem "tradingsymbol" (projectAllowed item) = false := by
      unfold PyVal.dMem at hmem ⊢
      rw [dGet_project_sym]
      exact hmem
    rw [dGet_enrich_sym, dGet_symStage_fill hmem0]
  refine ⟨?_, ?_, ?_, ?_, ?_, ?_⟩
  · intro item
    rw [PyVal.dMem, dGet_enrich_sym]
    rcases hm : PyVal.dMem "tradingsymbol" (projectAllowed item) with _ | _
    · rw [dGet_symStage_fill hm]
      rfl
    · rw [symStage_mem hm]
      unfold PyVal.dMem at hm
      exact hm
  · intro v raws1 raws2 hv
    unfold enrichHoldings
    rw [List.filterMap_append, List.filterMap_append, List.filterMap_cons]
    cases v with
    | vdict d => exact absurd rfl (hv d)
    | vnone => rfl
    | vbool b => rfl
    | vint n => rfl
    | vfloat q => rfl
    | vstr s => rfl
    | vbytes s => rfl
    | vlist l => rfl
  · intro item hmem hs
    rw [hfill item hmem]
    unfold symFallback PyVal.pyOr
    rw [hs]
    simp [hs]
  · intro item hmem hs ht
    rw [hfill item hmem]
    unfold symFallback PyVal.pyOr
    rw [hs]
    simp [hs, ht]
  · intro item hmem hs ht hc
    rw [hfill item hmem]
    unfold symFallback PyVal.pyOr
    simp [hs, ht, hc]
  · intro item hmem hs ht hc
    rw [hfill item hmem]
    unfold symFallback PyVal.pyOr
    simp [hs, ht, hc]

/-- Witness for the amended C10: the empty-string symbol is skipped in
favor of a truthy ticker, and with no truthy alias the placeholder is
used; the key is always present. -/
theorem claim_C10_tradingsymbol_witness :
    PyVal.dGet "tradingsymbol"
      (enrichItem [("symbol", PyVal.vstr ""), ("ticker", PyVal.vstr "TCK")]) =
      Option.some (PyVal.dGetV "ticker"
        [("symbol", PyVal.vstr ""), ("ticker", PyVal.vstr "TCK")]) ∧
    PyVal.dGet "tradingsymbol" (enrichItem [("quantity", PyVal.vint 3)]) =
      Option.some (PyVal.vstr "-") ∧
    PyVal.dMem "tradingsymbol" (enrichItem [("quantity", PyVal.vint 3)]) = true := by
  refine ⟨?_, ?_, ?_⟩
  · exact claim_C10_tradingsymbol.2.2.2.1
      [("symbol", PyVal.vstr ""), ("ticker", PyVal.vstr "TCK")] rfl rfl rfl
  · exact claim_C10_tradingsymbol.2.2.2.2.2
      [("quantity", PyVal.vint 3)] rfl rfl rfl rfl
  · exact claim_C10_tradingsymbol.1 [("quantity", PyVal.vint 3)]

/-! ### URL-extraction lemmas (claims C3 and C4) -/

mutual

/-- A value none of whose searchable texts contains a URL-pattern match
(dict keys are never searched by `extract_url`, only values). -/
def urlFree : PyVal → Bool
  | PyVal.vnone => (searchText (candText PyVal.vnone)).isNone
  | PyVal.vbool b => (searchText (candText (PyVal.vbool b))).isNone
  | PyVal.vint n => (searchText (candText (PyVal.vint n))).isNone
  | PyVal.vfloat q => (searchText (candText (PyVal.vfloat q))).isNone
  | PyVal.vstr s => (searchText (candText (PyVal.vstr s))).isNone
  | PyVal.vbytes s => (searchText (candText (PyVal.vbytes s))).isNone
  | PyVal.vlist l => urlFreeList l
  | PyVal.vdict d => urlFreeDict d

def urlFreeList : List PyVal → Bool
  | [] => true
  | v :: rest => urlFree v && urlFreeList rest

def urlFreeDict : List (String × PyVal) → Bool
  | [] => true
  | (_, v) :: rest => urlFree v && urlFreeDict rest

end

theorem dGet_urlFree {k : String} {d : List (String × PyVal)} {v : PyVal}
    (hd : urlFreeDict d = true) (h : PyVal.dGet k d = Option.some v) :
    urlFree v = true := by
  induction d with
  | nil => simp [PyVal.dGet] at h
  | cons p rest ih =>
    obtain ⟨k', w⟩ := p
    rw [urlFreeDict] at hd
    simp only [Bool.and_eq_true] at hd
    rw [PyVal.dGet] at h
    split at h
    · cases h
      exact hd.1
    · exact ih hd.2 h

/-- Unfolding equations of the dict-key candidate loop (its source match
carries a named hypothesis, so the automatic equations are awkward). -/
theorem tryDictKeys_nil (d : List (String × PyVal)) :
    tryDictKeys d [] = Option.none := by
  rw [tryDictKeys.eq_def]

theorem tryDictKeys_cons_some {d : List (String × PyVal)} {k : String} {v : PyVal}
    (ks : List String) (hget : PyVal.dGet k d = Option.some v) :
    tryDictKeys d (k :: ks) =
      (match tryCand v with
       | Option.some u => Option.some u
       | Option.none => tryDictKeys d ks) := by
  rw [tryDictKeys.eq_def]
  dsimp only
  split
  · rename_i v' hgv
    rw [hget] at hgv
    cases hgv
    rfl
  · rename_i hgv
    rw [hget] at hgv
    cases hgv

theorem tryDictKeys_cons_none {d : List (String × PyVal)} {k : String}
    (ks : List String) (hget : PyVal.dGet k d = Option.none) :
    tryDictKeys d (k :: ks) = tryDictKeys d ks := by
  rw [tryDictKeys.eq_def]
  dsimp only
  split
  · rename_i v' hgv
    rw [hget] at hgv
    cases hgv
  · rfl

/-- Matches of the bare-URL pattern start with the four characters
`http`. -/
theorem matchBareAt_shape {cs : List Char} {u : String}
    (h : matchBareAt cs = Option.some u) : u.data.take 4 = ['h', 't', 't', 'p'] := by
  unfold matchBareAt at h
  split at h
  · dsimp only at h
    split_ifs at h
    cases h
    simp
  · dsimp only at h
    split_ifs at h
    cases h
    simp
  · cases h

theorem searchBare_shape {cs : List Char} {u : String}
    (h : searchBare cs = Option.some u) : u.data.take 4 = ['h', 't', 't', 'p'] := by
  induction cs with
  | nil => simp [searchBare] at h
  | cons c rest ih =>
    rw [searchBare] at h
    split at h
    · cases h
      exact matchBareAt_shape (by assumption)
    · exact ih h

theorem matchMarkerAt_shape {cs : List Char} {u : String}
    (h : matchMarkerAt cs = Option.some u) : u.data.take 4 = ['h', 't', 't', 'p'] := by
  unfold matchMarkerAt at h
  split at h
  · exact matchBareAt_shape h
  · cases h

theorem searchMarker_shape {cs : List Char} {u : String}
    (h : searchMarker cs = Option.some u) : u.data.take 4 = ['h', 't', 't', 'p'] := by
  induction cs with
  | nil => simp [searchMarker] at h
  | cons c rest ih =>
    rw [searchMarker] at h
    split at h
    · cases h
      exact matchMarkerAt_shape (by assumption)
    · exact ih h

theorem searchText_shape {s : String} {u : String}
    (h : searchText s = Option.some u) : u.data.take 4 = ['h', 't', 't', 'p'] := by
  unfold searchText at h
  split at h
  · cases h
    exact searchMarker_shape (by assumption)
  · exact searchBare_shape h

theorem searchText_shape_ne {s u : String} (h : searchText s = Option.some u) :
    u ≠ "" := by
  intro he
  have hs := searchText_shape h
  rw [he] at hs
  simp at hs

/-- Every URL returned by `extract_url` starts with `http` (it is the
value of some regex match on some candidate text). -/
theorem extract_url_shape :
    ∀ (v : PyVal) (u : String), extract_url v = Option.some u →
      u.data.take 4 = ['h', 't', 't', 'p'] := by
  have H := extract_url.induct
    (fun v => ∀ u, extract_url v = Option.some u → u.data.take 4 = ['h', 't', 't', 'p'])
    (fun l => ∀ u, tryCandList l = Option.some u → u.data.take 4 = ['h', 't', 't', 'p'])
    (fun c => ∀ u, tryCand c = Option.some u → u.data.take 4 = ['h', 't', 't', 'p'])
    (fun d ks => ∀ u, tryDictKeys d ks = Option.some u → u.data.take 4 = ['h', 't', 't', 'p'])
  intro v
  apply H
  · intro u h
    rw [extract_url] at h
    cases h
  · intro s u h
    rw [extract_url] at h
    exact searchText_shape h
  · intro s u h
    rw [extract_url] at h
    exact searchText_shape h
  · intro b u h
    rw [extract_url] at h
    cases h
  · intro n u h
    rw [extract_url] at h
    cases h
  · intro q u h
    rw [extract_url] at h
    cases h
  · intro d hd u h
    rw [extract_url] at h
    exact hd u h
  · intro l hl u h
    rw [extract_url] at h
    exact hl u h
  · intro u h
    rw [tryCandList] at h
    cases h
  · intro c rest u0 hc h3 u h
    rw [tryCandList, hc] at h
    cases h
    exact h3 u0 hc
  · intro c rest hc h3 ih u h
    rw [tryCandList, hc] at h
    exact ih u h
  · intro d hd u h
    rw [tryCand] at h
    exact hd u h
  · intro l hl u h
    rw [tryCand] at h
    exact hl u h
  · intro c hne1 hne2 u h
    rw [tryCand] at h
    · exact searchText_shape h
    · exact hne1
    · exact hne2
  · intro d u h
    rw [tryDictKeys_nil] at h
    cases h
  · intro d k ks v hget u0 hc h3 u h
    rw [tryDictKeys_cons_some ks hget, hc] at h
    cases h
    exact h3 u0 hc
  · intro d k ks v hget hc h3 ih u h
    rw [tryDictKeys_cons_some ks hget, hc] at h
    exact ih u h
  · intro d k ks hget ih u h
    rw [tryDictKeys_cons_none ks hget] at h
    exact ih u h

/-- URL-free values extract nothing. -/
theorem extract_url_urlFree :
    ∀ v : PyVal, urlFree v = true → extract_url v = Option.none := by
  have H := extract_url.induct
    (fun v => urlFree v = true → extract_url v = Option.none)
    (fun l => urlFreeList l = true → tryCandList l = Option.none)
    (fun c => urlFree c = true → tryCand c = Option.none)
    (fun d ks => urlFreeDict d = true → tryDictKeys d ks = Option.none)
  intro v
  apply H
  · intro _
    rw [extract_url]
  · intro s h
    rw [extract_url]
    rw [urlFree] at h
    exact Option.isNone_iff_eq_none.mp h
  · intro s h
    rw [extract_url]
    rw [urlFree] at h
    exact Option.isNone_iff_eq_none.mp h
  · intro b _
    rw [extract_url]
  · intro n _
    rw [extract_url]
  · intro q _
    rw [extract_url]
  · intro d hd h
    rw [extract_url]
    rw [urlFree] at h
    exact hd h
  · intro l hl h
    rw [extract_url]
    rw [urlFree] at h
    exact hl h
  · intro _
    rw [tryCandList]
  · intro c rest u0 hc h3 h
    rw [urlFreeList] at h
    simp only [Bool.and_eq_true] at h
    rw [h3 h.1] at hc
    cases hc
  · intro c rest hc h3 ih h
    rw [urlFreeList] at h
    simp only [Bool.and_eq_true] at h
    rw [tryCandList, hc]
    exact ih h.2
  · intro d hd h
    rw [tryCand]
    rw [urlFree] at h
    exact hd h
  · intro l hl h
    rw [tryCand]
    rw [urlFree] at h
    exact hl h
  · intro c hne1 hne2 h
    rw [tryCand]
    · rcases c with _ | b | n | q | s | s | l | d
      · rw [urlFree] at h
        exact Option.isNone_iff_eq_none.mp h
      · rw [urlFree] at h
        exact Option.isNone_iff_eq_none.mp h
      · rw [urlFree] at h
        exact Option.isNone_iff_eq_none.mp h
      · rw [urlFree] at h
        exact Option.isNone_iff_eq_none.mp h
      · rw [urlFree] at h
        exact Option.isNone_iff_eq_none.mp h
      · rw [urlFree] at h
        exact Option.isNone_iff_eq_none.mp h
      · exact absurd rfl (hne2 l)
      · exact absurd rfl (hne1 d)
    · exact hne1
    · exact hne2
  · intro d _
    rw [tryDictKeys_nil]
  · intro d k ks v hget u0 hc h3 h
    rw [h3 (dGet_urlFree h hget)] at hc
    cases hc
  · intro d k ks v hget hc h3 ih h
    rw [tryDictKeys_cons_some ks hget, hc]
    exact ih h
  · intro d k ks hget ih h
    rw [tryDictKeys_cons_none ks hget]
    exact ih h

theorem tryCand_str (t : String) : tryCand (PyVal.vstr t) = searchText t := by
  rw [tryCand]
  · rfl
  · intro d hd
    cases hd
  · intro l hl
    cases hl

/-- Claim C3.  `extract_url` returns the embedded URL for the supported
shapes: a plain string (an explicit `URL:` marker anywhere in the string
is preferred over any bare `http(s)://` token, which is the fallback), a
dict with a `url` key, a dict with a `text` key, and a nested
list-of-dicts where the first candidate (in order) that yields a match
wins; and an input none of whose searchable texts contains a URL-pattern
match extracts nothing. -/
theorem claim_C3_extract_url :
    (∀ (s : String) (u : String), searchMarker s.data = Option.some u →
      extract_url (PyVal.vstr s) = Option.some u) ∧
    (∀ (s : String) (u : String), searchMarker s.data = Option.none →
      searchBare s.data = Option.some u →
      extract_url (PyVal.vstr s) = Option.some u) ∧
    (∀ (t : String) (r : String), searchText t = Option.some r →
      extract_url (PyVal.vdict [("url", PyVal.vstr t)]) = Option.some r) ∧
    (∀ (t : String) (r : String), searchText t = Option.some r →
      extract_url (PyVal.vdict [("text", PyVal.vstr t)]) = Option.some r) ∧
    (∀ (d1 : List (String × PyVal)) (t : String) (r : String),
      extract_url (PyVal.vdict d1) = Option.none → searchText t = Option.some r →
      extract_url (PyVal.vlist [PyVal.vdict d1, PyVal.vdict [("text", PyVal.vstr t)]]) =
        Option.some r) ∧
    (∀ v : PyVal, urlFree v = true → extract_url v = Option.none) := by
  have hstr : ∀ s : String, extract_url (PyVal.vstr s) = searchText s := by
    intro s
    rw [extract_url]
  have htext : ∀ (t r : String), searchText t = Option.some r →
      extract_url (PyVal.vdict [("text", PyVal.vstr t)]) = Option.some r := by
    intro t r h
    rw [extract_url]
    show tryDictKeys [("text", PyVal.vstr t)] candKeys = Option.some r
    rw [show candKeys = "text" :: ["message", "url", "data", "content",
      "structured_content"] from rfl]
    rw [tryDictKeys_cons_some _ (show PyVal.dGet "text" [("text", PyVal.vstr t)] =
      Option.some (PyVal.vstr t) from rfl)]
    rw [tryCand_str, h]
  refine ⟨?_, ?_, ?_, htext, ?_, extract_url_urlFree⟩
  · intro s u h
    rw [hstr]
    unfold searchText
    rw [h]
  · intro s u hm hb
    rw [hstr]
    unfold searchText
    rw [hm, hb]
  · intro t r h
    rw [extract_url]
    show tryDictKeys [("url", PyVal.vstr t)] candKeys = Option.some r
    rw [show candKeys = "text" :: "message" :: "url" :: ["data", "content",
      "structured_content"] from rfl]
    rw [tryDictKeys_cons_none _ (show PyVal.dGet "text" [("url", PyVal.vstr t)] =
      Option.none from rfl)]
    rw [tryDictKeys_cons_none _ (show PyVal.dGet "message" [("url", PyVal.vstr t)] =
      Option.none from rfl)]
    rw [tryDictKeys_cons_some _ (show PyVal.dGet "url" [("url", PyVal.vstr t)] =
      Option.some (PyVal.vstr t) from rfl)]
    rw [tryCand_str, h]
  · intro d1 t r h1 h2
    rw [extract_url]
    show tryCandList [PyVal.vdict d1, PyVal.vdict [("text", PyVal.vstr t)]] = Option.some r
    rw [tryCandList]
    rw [show tryCand (PyVal.vdict d1) = extract_url (PyVal.vdict d1) from by rw [tryCand]]
    rw [h1]
    rw [tryCandList]
    rw [show tryCand (PyVal.vdict [("text", PyVal.vstr t)]) =
      extract_url (PyVal.vdict [("text", PyVal.vstr t)]) from by rw [tryCand]]
    rw [htext t r h2]

/-- Witness for C3 at concrete inputs: marker preferred over an earlier
bare URL; dict `url` key; nested list of dicts with the first match
winning; and a URL-free value extracting nothing. -/
theorem claim_C3_extract_url_witness :
    extract_url (PyVal.vstr "bare http://first.x then URL: https://marker.y/z") =
      Option.some "https://marker.y/z" ∧
    extract_url (PyVal.vdict [("url", PyVal.vstr "https://a.b/c")]) =
      Option.some "https://a.b/c" ∧
    extract_url (PyVal.vlist [PyVal.vdict [("data", PyVal.vstr "no link")],
      PyVal.vdict [("text", PyVal.vstr "URL: http://deep.example/1")]]) =
      Option.some "http://deep.example/1" ∧
    extract_url (PyVal.vdict [("text", PyVal.vstr "nothing here")]) = Option.none := by
  refine ⟨?_, ?_, ?_, ?_⟩
  · exact claim_C3_extract_url.1 "bare http://first.x then URL: https://marker.y/z"
      "https://marker.y/z" rfl
  · exact claim_C3_extract_url.2.2.1 "https://a.b/c" "https://a.b/c" rfl
  · refine claim_C3_extract_url.2.2.2.2.1 [("data", PyVal.vstr "no link")]
      "URL: http://deep.example/1" "http://deep.example/1" ?_ rfl
    exact claim_C3_extract_url.2.2.2.2.2 (PyVal.vdict [("data", PyVal.vstr "no link")]) rfl
  · exact claim_C3_extract_url.2.2.2.2.2
      (PyVal.vdict [("text", PyVal.vstr "nothing here")]) rfl

/-- Claim C4.  `get_login_url` returns exactly the URL extracted by
`extract_url` whenever one is extractable, and fails with the protocol
error exactly when none is; a returned value is always a full
`http`-prefixed match, never an empty or partial value. -/
theorem claim_C4_get_login_url :
    (∀ (r : PyVal) (u : String), extract_url r = Option.some u →
      get_login_url r = Except.ok u) ∧
    (∀ r : PyVal, extract_url r = Option.none →
      get_login_url r = Except.error "Could not extract login URL from MCP response") ∧
    (∀ (r : PyVal) (u : String), get_login_url r = Except.ok u →
      extract_url r = Option.some u ∧ u ≠ "" ∧
        u.data.take 4 = ['h', 't', 't', 'p']) := by
  refine ⟨?_, ?_, ?_⟩
  · intro r u h
    unfold get_login_url
    rw [h]
    dsimp only
    have hne : ¬(u = "") := by
      intro he
      have hs := extract_url_shape r u h
      rw [he] at hs
      simp at hs
    rw [if_neg hne]
  · intro r h
    unfold get_login_url
    rw [h]
  · intro r u h
    unfold get_login_url at h
    rcases he : extract_url r with _ | u'
    · rw [he] at h
      cases h
    · rw [he] at h
      dsimp only at h
      split_ifs at h with hemp
      cases h
      exact ⟨rfl, hemp, extract_url_shape r u he⟩

/-- Witness for C4: a login result carrying a marker URL yields exactly
that URL, and a result with no URL fails with the protocol error. -/
theorem claim_C4_get_login_url_witness :
    get_login_url (PyVal.vstr "URL: https://kite.trade/connect/login") =
      Except.ok "https://kite.trade/connect/login" ∧
    get_login_url (PyVal.vstr "no link in sight") =
      Except.error "Could not extract login URL from MCP response" := by
  constructor
  · refine claim_C4_get_login_url.1 _ _ ?_
    rw [show extract_url (PyVal.vstr "URL: https://kite.trade/connect/login") =
      searchText "URL: https://kite.trade/connect/login" from by rw [extract_url]]
    rfl
  · refine claim_C4_get_login_url.2.1 _ ?_
    exact claim_C3_extract_url.2.2.2.2.2 (PyVal.vstr "no link in sight") rfl

/-! ### `parse_thesis_content` (main.py 173-359)

The thesis parser is a pipeline of regex extractions.  Each regex used by
the source is simple enough to admit a direct deterministic scanner:

* `PRE(.*?)(?=ALT1|ALT2|$)` with `re.DOTALL` — the lookahead alternatives
  and `$` make the tail always satisfiable once the literal prefix `PRE`
  matches, so the leftmost match starts at the first occurrence of `PRE`
  and the lazy group stops at the first position where an alternative (or
  `$`) holds.  Without `re.MULTILINE`, `$` holds at the end of the string
  and just before a terminal newline.
* `\|([^|]+)\|([^|]+)\|([^|]+)\|` under `findall` — `[^|]+` cannot trade
  characters with the literal `|` that follows it, so each group is the
  maximal nonempty pipe-free run and matching is backtracking-free;
  `findall` scans left to right, resuming after each match.
* character-class substitutions delete the listed codepoints.

`\s` and `str.strip` whitespace is modelled by `isPyWs` and `\d`/`\w` by
ASCII digits/alphanumerics, as elsewhere in this file. -/

/-- Suffix of `s` after the first (leftmost) occurrence of `p`, if any. -/
def findAfter (p : List Char) : List Char → Option (List Char)
  | [] => if p.isEmpty then Option.some [] else Option.none
  | c :: rest =>
    if p.isPrefixOf (c :: rest) then Option.some ((c :: rest).drop p.length)
    else findAfter p rest

/-- Python's substring test `p in s`. -/
def containsSub (p s : List Char) : Bool :=
  (findAfter p s).isSome

/-- `$` without `re.MULTILINE`: the position at the very end of the
string, or just before a terminal newline.  The argument is the suffix of
the subject string starting at the position under test. -/
def dollarAt : List Char → Bool
  | [] => true
  | ['\n'] => true
  | _ => false

/-- Lazy group with lookahead `(.*?)(?=alt₁|…|altₙ|$)` under `re.DOTALL`:
split at the first position where some alternative (or `$`) matches;
returns (group, remaining suffix). -/
def lazyUntil (alts : List (List Char)) : List Char → List Char × List Char
  | [] => ([], [])
  | c :: rest =>
    if alts.any (fun a => a.isPrefixOf (c :: rest)) || dollarAt (c :: rest) then
      ([], c :: rest)
    else
      let p := lazyUntil alts rest
      (c :: p.1, p.2)

/-- `re.search(PRE + r"(.*?)(?=" + alts + r"|$)", content, re.DOTALL)`,
returning group 1: the lookahead plus `$` always lets the tail match, so
the search succeeds exactly when the literal `pre` occurs. -/
def sectionSearch (pre : List Char) (alts : List (List Char))
    (content : List Char) : Option (List Char) :=
  match findAfter pre content with
  | Option.some suffix => Option.some (lazyUntil alts suffix).1
  | Option.none => Option.none

/-- Python `str.split("\n")`. -/
def splitNl : List Char → List (List Char)
  | [] => [[]]
  | '\n' :: rest => [] :: splitNl rest
  | c :: rest =>
    match splitNl rest with
    | l :: ls => (c :: l) :: ls
    | [] => [[c]]

/-- `str.lower()` restricted to ASCII (the parser only compares the
result against the ASCII words `metric`, `category`, `score`). -/
def asciiLower (c : Char) : Char :=
  if 'A' ≤ c ∧ c ≤ 'Z' then Char.ofNat (c.toNat + 32) else c

/-- ASCII `str.lower()` on a string. -/
def strLower (s : String) : String :=
  String.mk (s.data.map asciiLower)

/-- `str.strip()` on a character list (`pyStrip` is this under
`String.mk`). -/
def stripChars (l : List Char) : List Char :=
  ((l.dropWhile isPyWs).reverse.dropWhile isPyWs).reverse

/-- `metric_name.replace("**", "")`: delete non-overlapping occurrences
of `**`, scanning left to right. -/
def removeBoldMarks : List Char → List Char
  | [] => []
  | '*' :: '*' :: rest => removeBoldMarks rest
  | c :: rest => c :: removeBoldMarks rest

/-- One match of `\*\*([^*]+)\*\*` anchored at the head: `[^*]+` is the
maximal nonempty star-free run and must be followed by `**` (shrinking
the run cannot help, since it would park a non-star where a star is
required).  Returns (group, suffix after the match). -/
def boldSubAt : List Char → Option (List Char × List Char)
  | '*' :: '*' :: rest =>
    let g := rest.takeWhile (fun c => c ≠ '*')
    if g.isEmpty then Option.none
    else
      match rest.drop g.length with
      | '*' :: '*' :: r => Option.some (g, r)
      | _ => Option.none
  | _ => Option.none

/-- `re.sub(r"\*\*([^*]+)\*\*", r"\1", s)`: leftmost, non-overlapping.
The fuel only bounds the recursion; every step consumes at least one
character, so fuel `s.length` evaluates the substitution completely. -/
def boldSub : Nat → List Char → List Char
  | 0, s => s
  | _, [] => []
  | fuel + 1, c :: rest =>
    match boldSubAt (c :: rest) with
    | Option.some (g, r) => g ++ boldSub fuel r
    | Option.none => c :: boldSub fuel rest

/-- One table cell `([^|]+)\|`: maximal nonempty pipe-free run followed
by the closing pipe.  Returns (cell, suffix after the pipe). -/
def cellAt (s : List Char) : Option (List Char × List Char) :=
  let g := s.takeWhile (fun c => c ≠ '|')
  if g.isEmpty then Option.none
  else
    match s.drop g.length with
    | '|' :: rest => Option.some (g, rest)
    | _ => Option.none

/-- One match of `\|([^|]+)\|([^|]+)\|([^|]+)\|` anchored at the head:
an opening pipe and three cells.  Returns (the three groups, suffix
after the final pipe). -/
def rowAt : List Char → Option ((List Char × List Char × List Char) × List Char)
  | '|' :: r0 =>
    match cellAt r0 with
    | Option.some (g1, r1) =>
      match cellAt r1 with
      | Option.some (g2, r2) =>
        match cellAt r2 with
        | Option.some (g3, r3) => Option.some ((g1, g2, g3), r3)
        | Option.none => Option.none
      | Option.none => Option.none
    | Option.none => Option.none
  | _ => Option.none

/-- `re.findall(r"\|([^|]+)\|([^|]+)\|([^|]+)\|", s)`: scan left to
right, resuming after each non-overlapping match, advancing one
character past a failed start.  Every step consumes at least one
character, so fuel `s.length` completes the scan. -/
def findall3 : Nat → List Char → List (List Char × List Char × List Char)
  | 0, _ => []
  | _ + 1, [] => []
  | fuel + 1, c :: rest =>
    match rowAt (c :: rest) with
    | Option.some (row, r) => row :: findall3 fuel r
    | Option.none => findall3 fuel rest

/-- First-binding membership test of an insertion-ordered dict. -/
def adictMem {α : Type} (k : String) (d : List (String × α)) : Bool :=
  d.any (fun p => p.1 == k)

/-- First-binding lookup of an insertion-ordered dict. -/
def adictGet {α : Type} (k : String) : List (String × α) → Option α
  | [] => Option.none
  | (k', v) :: rest => if k' == k then Option.some v else adictGet k rest

/-- Python `d[k] = v`: update the existing binding in place, else append
a new binding at the end. -/
def adictSet {α : Type} (k : String) (v : α) : List (String × α) → List (String × α)
  | [] => [(k, v)]
  | (k', v') :: rest =>
    if k' == k then (k', v) :: rest else (k', v') :: adictSet k v rest

/-! The emoji markers appear in the source in their mojibake form (the
UTF-8 bytes of the emoji decoded as codepoints); the literals below
carry exactly the same codepoint sequences as main.py. -/

/-- Mojibake of the green-circle glyph (`U+00F0 U+0178 U+0178 U+00A2`). -/
def glyphGreen : String := "ðŸŸ¢"

/-- Mojibake of the yellow-circle glyph (`U+00F0 U+0178 U+0178 U+00A1`). -/
def glyphYellow : String := "ðŸŸ¡"

/-- Mojibake of the red-circle glyph (`U+00F0 U+0178 U+201D U+00B4`). -/
def glyphRed : String := "ðŸ”´"

/-- Mojibake of the cross-mark glyph (`U+00E2 U+0152`). -/
def glyphCross : String := "âŒ"

/-- Mojibake of the check-mark glyph (`U+00E2 U+0153 U+2026`). -/
def glyphCheck : String := "âœ…"

/-- The codepoints of the character class
`[ðŸŸ¢ðŸŸ¡ðŸ”´âŒâœ…]` used by `re.sub` (duplicates are harmless). -/
def glyphChars : List Char :=
  (glyphGreen ++ glyphYellow ++ glyphRed ++ glyphCross ++ glyphCheck).data

/-- The score-cell cleanup shared by the metrics and decision-matrix
loops (main.py 210-229 and 259-278): map a recognised glyph to its
ordinal label, strip the glyph codepoints, and fall back on the glyph
tier when nothing is left.  `score` is the already-stripped cell. -/
def cleanScore (score : String) : String :=
  let score_clean : String :=
    if containsSub glyphGreen.data score.data then "High"
    else if containsSub glyphYellow.data score.data then "Medium"
    else if containsSub glyphRed.data score.data
        || containsSub glyphCross.data score.data then "Low"
    else if containsSub glyphCheck.data score.data then "High"
    else score
  let score_clean :=
    pyStrip (String.mk (score_clean.data.filter (fun c => ¬ glyphChars.contains c)))
  if score_clean = "" then
    if containsSub glyphGreen.data score.data
        || containsSub glyphCheck.data score.data then "High"
    else if containsSub glyphYellow.data score.data then "Medium"
    else "Low"
  else score_clean

/-- A `score`/`justification` cell pair. -/
structure ScoreJust where
  score : String
  justification : String

/-- The metrics-table row loop (main.py 192-237): state is the current
category and the two-level dict built so far. -/
def metricsLoop : List (List Char × List Char × List Char) → String →
    List (String × List (String × ScoreJust)) →
    List (String × List (String × ScoreJust))
  | [], _, m => m
  | (c1, c2, c3) :: rows, cat, m =>
    let metric_name := pyStrip (String.mk c1)
    let score := pyStrip (String.mk c2)
    let justification := pyStrip (String.mk c3)
    if strLower metric_name == "metric" || strLower metric_name == "category"
        || containsSub "---".data metric_name.data then
      metricsLoop rows cat m
    else if "**".data.isPrefixOf metric_name.data
        && "**".data.isSuffixOf metric_name.data then
      let cat' := pyStrip (String.mk (removeBoldMarks metric_name.data))
      metricsLoop rows cat' (if adictMem cat' m then m else m ++ [(cat', [])])
    else
      let entry : ScoreJust := ⟨cleanScore score, justification⟩
      let m' :=
        match adictGet cat m with
        | Option.some inner => adictSet cat (adictSet metric_name entry inner) m
        | Option.none => m ++ [(cat, [(metric_name, entry)])]
      metricsLoop rows cat m'

/-- The decision-matrix row loop (main.py 246-283). -/
def matrixLoop : List (List Char × List Char × List Char) →
    List (String × ScoreJust) → List (String × ScoreJust)
  | [], m => m
  | (c1, c2, c3) :: rows, m =>
    let category := pyStrip (String.mk c1)
    let score := pyStrip (String.mk c2)
    let justification := pyStrip (String.mk c3)
    if strLower category == "category" || strLower category == "score"
        || containsSub "---".data category.data then
      matrixLoop rows m
    else
      let category_clean := pyStrip (String.mk (boldSub category.data.length category.data))
      matrixLoop rows (adictSet category_clean ⟨cleanScore score, justification⟩ m)

/-- The literal prefix `\*\*Recommendation:` shared by the two verdict
regexes. -/
def recLit : List Char := "**Recommendation:".data

/-- `([^*\n]+)\*\*` anchored at the head: the maximal nonempty run free
of `*` and newline, which must be followed by `**` (shrinking the run
parks a forbidden character where a star is required, so there is no
backtracking). -/
def recGroupAt (s : List Char) : Option (List Char) :=
  let g := s.takeWhile (fun c => c ≠ '*' ∧ c ≠ '\n')
  if g.isEmpty then Option.none
  else
    match s.drop g.length with
    | '*' :: '*' :: _ => Option.some g
    | _ => Option.none

/-- `\s*([^*\n]+)\*\*` anchored at the head, with the greedy `\s*`
backtracking of the regex engine: prefer to consume a whitespace
character into `\s*`, and on failure retry with the group starting at
that character. -/
def recMatchTail : List Char → Option (List Char)
  | [] => Option.none
  | c :: rest =>
    if isPyWs c then
      match recMatchTail rest with
      | Option.some g => Option.some g
      | Option.none => recGroupAt (c :: rest)
    else recGroupAt (c :: rest)

/-- `re.search(r"\*\*Recommendation:\s*([^*\n]+)\*\*", s)`: leftmost
start at which the whole pattern matches, returning group 1. -/
def recSearch : List Char → Option (List Char)
  | [] => Option.none
  | c :: rest =>
    if recLit.isPrefixOf (c :: rest) then
      match recMatchTail ((c :: rest).drop recLit.length) with
      | Option.some g => Option.some g
      | Option.none => recSearch rest
    else recSearch rest

/-- One match of
`\*\*Recommendation:[^*]+\*\*\n\n(.*?)(?=\n\*\*Caveats|$)` anchored at
the head (`[^*]+` is the maximal nonempty star-free run and must be
followed by `**` and a blank line), returning group 1. -/
def recSumAt (s : List Char) : Option (List Char) :=
  if recLit.isPrefixOf s then
    let r := s.drop recLit.length
    let g := r.takeWhile (fun c => c ≠ '*')
    if g.isEmpty then Option.none
    else
      match r.drop g.length with
      | '*' :: '*' :: '\n' :: '\n' :: r2 =>
        Option.some (lazyUntil ["\n**Caveats".data] r2).1
      | _ => Option.none
  else Option.none

/-- Leftmost search for the recommendation-summary pattern. -/
def recSumSearch : List Char → Option (List Char)
  | [] => Option.none
  | c :: rest =>
    match recSumAt (c :: rest) with
    | Option.some g => Option.some g
    | Option.none => recSumSearch rest

/-- `re.match(r"^\d+\.\s+\*\*", line)`: digits, a dot, whitespace, then
`**`.  `\d+` cannot trade with the literal dot and `\s+` cannot trade
with the stars, so the scan is deterministic. -/
def caveatNumAt (s : List Char) : Bool :=
  let ds := s.takeWhile Char.isDigit
  if ds.isEmpty then false
  else
    match s.drop ds.length with
    | '.' :: r =>
      let ws := r.takeWhile isPyWs
      if ws.isEmpty then false
      else
        match r.drop ws.length with
        | '*' :: '*' :: _ => true
        | _ => false
    | _ => false

/-- `re.sub(r"^\d+\.\s+\*\*([^*]+)\*\*:", r"\1", line)`: anchored at the
start, so at most one replacement; on no match the line is returned
unchanged. -/
def caveatSub (s : List Char) : List Char :=
  let ds := s.takeWhile Char.isDigit
  if ds.isEmpty then s
  else
    match s.drop ds.length with
    | '.' :: r =>
      let ws := r.takeWhile isPyWs
      if ws.isEmpty then s
      else
        match r.drop ws.length with
        | '*' :: '*' :: r2 =>
          let g := r2.takeWhile (fun c => c ≠ '*')
          if g.isEmpty then s
          else
            match r2.drop g.length with
            | '*' :: '*' :: ':' :: r3 => g ++ r3
            | _ => s
        | _ => s
    | _ => s

/-- The caveat accumulation loop (main.py 309-330): `current` is the
caveat being assembled (`""` when none is); each `line` is stripped on
entry. -/
def caveatLoop : List (List Char) → List Char → List String
  | [], current =>
    if current.isEmpty then [] else [pyStrip (String.mk current)]
  | line :: rest, current =>
    if (stripChars line).isEmpty then
      if current.isEmpty then caveatLoop rest current
      else pyStrip (String.mk current) :: caveatLoop rest []
    else if caveatNumAt (stripChars line) then
      if current.isEmpty then
        caveatLoop rest (stripChars (caveatSub (stripChars line)))
      else
        pyStrip (String.mk current) ::
          caveatLoop rest (stripChars (caveatSub (stripChars line)))
    else caveatLoop rest (current ++ ' ' :: stripChars line)

/-- The literal prefix of the timestamp pattern. -/
def tsLit : List Char := "Analysis generated on ".data

/-- `(\d{4}-\d{2}-\d{2})` anchored at the head (`\d` as ASCII digits). -/
def dateAt : List Char → Option String
  | y1 :: y2 :: y3 :: y4 :: '-' :: m1 :: m2 :: '-' :: d1 :: d2 :: _ =>
    if (y1.isDigit && y2.isDigit && y3.isDigit && y4.isDigit
        && m1.isDigit && m2.isDigit && d1.isDigit && d2.isDigit) then
      Option.some (String.mk [y1, y2, y3, y4, '-', m1, m2, '-', d1, d2])
    else Option.none
  | _ => Option.none

/-- `re.search(r"Analysis generated on (\d{4}-\d{2}-\d{2})", content)`:
leftmost start at which the whole pattern matches, returning group 1. -/
def tsSearch : List Char → Option String
  | [] => Option.none
  | c :: rest =>
    if tsLit.isPrefixOf (c :: rest) then
      match dateAt ((c :: rest).drop tsLit.length) with
      | Option.some d => Option.some d
      | Option.none => tsSearch rest
    else tsSearch rest

/-- The caveat block of the final-verdict section (main.py 305-330). -/
def verdictCaveats (vc : List Char) : List String :=
  match findAfter "**Caveats:**\n".data vc with
  | Option.some suf =>
    caveatLoop
      (splitNl (stripChars (lazyUntil ["Despite these caveats".data] suf).1)) []
  | Option.none => []

/-- The three extractions over the final-verdict section (main.py
294-330): recommendation label, recommendation summary, caveats. -/
def verdictParts (vc : List Char) : String × String × List String :=
  (match recSearch vc with
    | Option.some g => pyStrip (String.mk g)
    | Option.none => "Unknown",
   match recSumSearch vc with
    | Option.some g => pyStrip (String.mk g)
    | Option.none => "",
   verdictCaveats vc)

/-- The record returned by `parse_thesis_content`. -/
structure ThesisDoc where
  executiveSummary : String
  recommendation : String
  recommendationSummary : String
  caveats : List String
  generatedAt : Option String
  metrics : List (String × List (String × ScoreJust))
  decisionMatrix : List (String × ScoreJust)

/-- `parse_thesis_content` (main.py 173-346), the `try` body.  The
Python wraps this in `try/except Exception` returning
`parse_thesis_fallback`; in this pure model every step is total, so the
`except` arm is unreachable and the function never raises by
construction. -/
def parse_thesis_content (content : String) : ThesisDoc :=
  let cs := content.data
  let executive_summary :=
    match sectionSearch "### 1. Executive Summary\n\n".data
        ["\n###".data, "\n## ".data] cs with
    | Option.some g => pyStrip (String.mk g)
    | Option.none => ""
  let metrics :=
    match sectionSearch "### 2. Metric-by-Metric Evaluation".data
        ["\n### 3.".data, "\n###".data, "\n## ".data] cs with
    | Option.some g => metricsLoop (findall3 g.length g) "General" []
    | Option.none => []
  let decision_matrix :=
    match sectionSearch "### 3. Decision Matrix".data
        ["\n### 4.".data, "\n###".data, "\n## ".data] cs with
    | Option.some g => matrixLoop (findall3 g.length g) []
    | Option.none => []
  let verdict : String × String × List String :=
    match sectionSearch "### 4. Final Verdict".data
        ["\n---".data, "\n###".data, "\n## ".data] cs with
    | Option.some vc => verdictParts vc
    | Option.none => ("Unknown", "", [])
  let generated_at := tsSearch cs
  ⟨executive_summary, verdict.1, verdict.2.1, verdict.2.2,
    generated_at, metrics, decision_matrix⟩

/-- The record of the `except` arm (main.py 351-359): the defaults plus
the two placeholder summaries. -/
def parse_thesis_fallback : ThesisDoc :=
  ⟨"Analysis content could not be parsed", "Unknown",
    "Please refer to the original thesis document", [], Option.none, [], []⟩

/-- The all-defaults `ThesisDocument` of the spec (§3): every field at
its safe default. -/
def thesisDefaults : ThesisDoc :=
  ⟨"", "Unknown", "", [], Option.none, [], []⟩

/-- A character that fails the whitespace test survives `dropWhile`. -/
theorem mem_dropWhile_not_ws {l : List Char} {c : Char} (hc : c ∈ l)
    (hw : isPyWs c = false) : c ∈ l.dropWhile isPyWs := by
  induction l with
  | nil => cases hc
  | cons a t ih =>
    rw [List.dropWhile_cons]
    by_cases ha : isPyWs a = true
    · rw [if_pos ha]
      rcases List.mem_cons.mp hc with hca | hct
      · subst hca
        rw [hw] at ha
        cases ha
      · exact ih hct
    · rw [if_neg ha]
      exact hc

/-- The head surviving a whitespace `dropWhile` is not whitespace. -/
theorem dropWhile_head_not_ws {l t : List Char} {c : Char}
    (h : l.dropWhile isPyWs = c :: t) : isPyWs c = false := by
  induction l with
  | nil => cases h
  | cons a r ih =>
    rw [List.dropWhile_cons] at h
    by_cases ha : isPyWs a = true
    · rw [if_pos ha] at h
      exact ih h
    · rw [if_neg ha] at h
      injection h with h1 _
      subst h1
      simpa using ha

/-- A list holding a non-whitespace character strips to something
nonempty. -/
theorem stripChars_ne_nil {l : List Char} {c : Char} (hc : c ∈ l)
    (hw : isPyWs c = false) : stripChars l ≠ [] := by
  intro hnil
  unfold stripChars at hnil
  have h1 : c ∈ l.dropWhile isPyWs := mem_dropWhile_not_ws hc hw
  have h2 : c ∈ (l.dropWhile isPyWs).reverse := List.mem_reverse.mpr h1
  have h3 : c ∈ (l.dropWhile isPyWs).reverse.dropWhile isPyWs :=
    mem_dropWhile_not_ws h2 hw
  rw [List.reverse_eq_nil_iff] at hnil
  rw [hnil] at h3
  cases h3

/-- A nonempty stripped list holds a non-whitespace character. -/
theorem stripChars_has_content {l : List Char} (h : stripChars l ≠ []) :
    ∃ c ∈ stripChars l, isPyWs c = false := by
  unfold stripChars at h ⊢
  rcases hd : (l.dropWhile isPyWs).reverse.dropWhile isPyWs with _ | ⟨c, t⟩
  · rw [hd] at h
    simp at h
  · exact ⟨c, List.mem_reverse.mpr (List.mem_cons_self c t),
      dropWhile_head_not_ws hd⟩

/-- A character list holding a non-whitespace character does not
`pyStrip` to the empty string. -/
theorem pyStrip_mk_ne_empty {cur : List Char} {c : Char} (hc : c ∈ cur)
    (hw : isPyWs c = false) : pyStrip (String.mk cur) ≠ "" := by
  intro he
  have hd : stripChars cur = [] := congrArg String.data he
  exact stripChars_ne_nil hc hw hd

/-- Every string the caveat loop emits is nonempty, provided the caveat
under assembly is empty or holds a non-whitespace character (the
initial state `""` satisfies this). -/
theorem caveatLoop_mem_ne_empty :
    ∀ (lines : List (List Char)) (current : List Char),
      (current = [] ∨ ∃ c ∈ current, isPyWs c = false) →
      ∀ s ∈ caveatLoop lines current, s ≠ "" := by
  intro lines
  induction lines with
  | nil =>
    intro current hinv s hs
    unfold caveatLoop at hs
    by_cases hc : current.isEmpty
    · rw [if_pos hc] at hs
      cases hs
    · rw [if_neg hc] at hs
      rcases hinv with h0 | ⟨c, hcm, hcw⟩
      · subst h0
        simp at hc
      · rw [List.mem_singleton] at hs
        subst hs
        exact pyStrip_mk_ne_empty hcm hcw
  | cons line rest ih =>
    intro current hinv s hs
    have hcur : ¬ current.isEmpty = true → pyStrip (String.mk current) ≠ "" := by
      intro hc
      rcases hinv with h0 | ⟨c, hcm, hcw⟩
      · subst h0
        simp at hc
      · exact pyStrip_mk_ne_empty hcm hcw
    have hnew : ∀ x : List Char,
        stripChars x = [] ∨ ∃ c ∈ stripChars x, isPyWs c = false := by
      intro x
      by_cases hx : stripChars x = []
      · exact Or.inl hx
      · exact Or.inr (stripChars_has_content hx)
    unfold caveatLoop at hs
    by_cases h1 : (stripChars line).isEmpty = true
    · rw [if_pos h1] at hs
      by_cases h2 : current.isEmpty = true
      · rw [if_pos h2] at hs
        exact ih current hinv s hs
      · rw [if_neg h2] at hs
        rcases List.mem_cons.mp hs with hs | hs
        · subst hs
          exact hcur h2
        · exact ih [] (Or.inl rfl) s hs
    · rw [if_neg h1] at hs
      by_cases h3 : caveatNumAt (stripChars line) = true
      · rw [if_pos h3] at hs
        by_cases h4 : current.isEmpty = true
        · rw [if_pos h4] at hs
          exact ih _ (hnew (caveatSub (stripChars line))) s hs
        · rw [if_neg h4] at hs
          rcases List.mem_cons.mp hs with hs | hs
          · subst hs
            exact hcur h4
          · exact ih _ (hnew (caveatSub (stripChars line))) s hs
      · rw [if_neg h3] at hs
        refine ih _ ?_ s hs
        have h1' : stripChars line ≠ [] := by
          intro hx
          rw [hx] at h1
          exact h1 rfl
        rcases stripChars_has_content h1' with ⟨c, hcm, hcw⟩
        exact Or.inr ⟨c, List.mem_append_right _ (List.mem_cons_of_mem _ hcm), hcw⟩

/-- A successful `dateAt` yields exactly a ten-character
`DDDD-DD-DD` digit shape. -/
theorem dateAt_shape {s : List Char} {d : String}
    (h : dateAt s = Option.some d) :
    ∃ y1 y2 y3 y4 m1 m2 d1 d2,
      (y1.isDigit && y2.isDigit && y3.isDigit && y4.isDigit
        && m1.isDigit && m2.isDigit && d1.isDigit && d2.isDigit) = true ∧
      d = String.mk [y1, y2, y3, y4, '-', m1, m2, '-', d1, d2] := by
  unfold dateAt at h
  split at h
  · rename_i y1 y2 y3 y4 m1 m2 d1 d2 rest
    split_ifs at h with hd
    have := Option.some.inj h
    exact ⟨y1, y2, y3, y4, m1, m2, d1, d2, hd, this.symm⟩
  · exact Option.noConfusion h

/-- Any date the timestamp search returns has the `DDDD-DD-DD` shape. -/
theorem tsSearch_shape {s : List Char} {d : String}
    (h : tsSearch s = Option.some d) :
    ∃ y1 y2 y3 y4 m1 m2 d1 d2,
      (y1.isDigit && y2.isDigit && y3.isDigit && y4.isDigit
        && m1.isDigit && m2.isDigit && d1.isDigit && d2.isDigit) = true ∧
      d = String.mk [y1, y2, y3, y4, '-', m1, m2, '-', d1, d2] := by
  induction s with
  | nil => exact Option.noConfusion h
  | cons c rest ih =>
    unfold tsSearch at h
    split_ifs at h with hp
    · rcases hda : dateAt ((c :: rest).drop tsLit.length) with _ | d'
      · rw [hda] at h
        exact ih h
      · rw [hda] at h
        have hd := Option.some.inj h
        subst hd
        exact dateAt_shape hda
    · exact ih h

/-- C8: `parse_thesis_content` never raises on any input — modelled as a
total function, since every step of the `try` body is total and the
`except` arm is unreachable — and returns a structurally valid
`ThesisDoc`: the empty document parses to the all-defaults record, any
extracted generation date has the `DDDD-DD-DD` digit shape, every
emitted caveat is a nonempty string, and the internal-error record is
the all-defaults record plus the two explanatory placeholder
summaries. -/
theorem claim_C8_parser_never_raises :
    parse_thesis_content "" = thesisDefaults ∧
    (∀ (content : String) (d : String),
      (parse_thesis_content content).generatedAt = Option.some d →
      ∃ y1 y2 y3 y4 m1 m2 d1 d2,
        (y1.isDigit && y2.isDigit && y3.isDigit && y4.isDigit
          && m1.isDigit && m2.isDigit && d1.isDigit && d2.isDigit) = true ∧
        d = String.mk [y1, y2, y3, y4, '-', m1, m2, '-', d1, d2]) ∧
    (∀ (content : String) (s : String),
      s ∈ (parse_thesis_content content).caveats → s ≠ "") ∧
    parse_thesis_fallback = { thesisDefaults with
      executiveSummary := "Analysis content could not be parsed"
      recommendationSummary := "Please refer to the original thesis document" } := by
  refine ⟨rfl, ?_, ?_, rfl⟩
  · intro content d h
    exact tsSearch_shape h
  · intro content s hs
    have hc : (parse_thesis_content content).caveats =
        (match sectionSearch "### 4. Final Verdict".data
            ["\n---".data, "\n###".data, "\n## ".data] content.data with
          | Option.some vc => verdictParts vc
          | Option.none => ("Unknown", "", [])).2.2 := rfl
    rw [hc] at hs
    rcases hv : sectionSearch "### 4. Final Verdict".data
        ["\n---".data, "\n###".data, "\n## ".data] content.data with _ | vc
    · rw [hv] at hs
      cases hs
    · rw [hv] at hs
      dsimp only [verdictParts] at hs
      unfold verdictCaveats at hs
      rcases hf : findAfter "**Caveats:**\n".data vc with _ | suf
      · rw [hf] at hs
        cases hs
      · rw [hf] at hs
        exact caveatLoop_mem_ne_empty _ [] (Or.inl rfl) s hs

/-- Witness for C8: a document carrying a generation timestamp yields a
date of the required shape, and a concrete parsed caveat is nonempty. -/
theorem claim_C8_parser_never_raises_witness :
    (∃ y1 y2 y3 y4 m1 m2 d1 d2,
      (y1.isDigit && y2.isDigit && y3.isDigit && y4.isDigit
        && m1.isDigit && m2.isDigit && d1.isDigit && d2.isDigit) = true ∧
      ("2024-03-15" : String) =
        String.mk [y1, y2, y3, y4, '-', m1, m2, '-', d1, d2]) ∧
    ("Valuation rich multiples" : String) ≠ "" :=
  ⟨claim_C8_parser_never_raises.2.1
      "Analysis generated on 2024-03-15" "2024-03-15" (by rfl),
   claim_C8_parser_never_raises.2.2.1
      "### 4. Final Verdict\n**Caveats:**\n1. **Valuation**: rich multiples\n"
      "Valuation rich multiples" (List.Mem.head _)⟩

end Portfolio